import Mathlib

/-!
Verification of the synapsegenie validation/ingestion pipeline and table
reconciliation engine, shallowly embedded from the Python sources
(`synapsegenie/process_functions.py`, `synapsegenie/input_to_database.py`,
`synapsegenie/validate.py`, `synapsegenie/config.py`,
`synapsegenie/example_filetype_format.py`, `example_registry/csv.py`).

Dataframes are embedded as lists of rows over a shared column-name list;
a cell is either a null (pandas NaN) or a string value.  Machinery that is
pure I/O (Synapse REST calls, file writes) is not modelled; the row-delta
computation, the status/error frame updates piped into it, and the string
sanitation are embedded faithfully.
-/

namespace SynapseGenie

/-- A dataframe cell: pandas null (NaN) or a scalar rendered as a string. -/
inductive Cell where
  | null : Cell
  | str : String → Cell
deriving DecidableEq, Repr

/-- `fillna("")`: null cells become the empty string, others are kept. -/
def fillCell : Cell → Cell
  | Cell.null => Cell.str ""
  | Cell.str s => Cell.str s

/-- Python `str()` view of a cell (`str(nan) = "nan"`). -/
def cellToStr : Cell → String
  | Cell.null => "nan"
  | Cell.str s => s

/-- A dataframe: column names plus rows, each row aligned with `cols`. -/
structure Frame where
  cols : List String
  rows : List (List Cell)
deriving DecidableEq, Repr

/-- `df.fillna("")` applied to a whole frame. -/
def fillRow (r : List Cell) : List Cell := r.map fillCell

/-- `df.fillna("")` applied to a whole frame. -/
def fillFrame (f : Frame) : Frame := ⟨f.cols, f.rows.map fillRow⟩

/-- Column access `row[col]`: the cell under the first column named `target`
(pandas label lookup), null when the column is absent. -/
def getCell : List String → List Cell → String → Cell
  | [], _, _ => Cell.null
  | _ :: _, [], _ => Cell.null
  | c :: cs, v :: vs, target => if c = target then v else getCell cs vs target

/-- `new_dataset[orig_database_cols]`: reprojection of a frame to a target
column order. -/
def reproject (target : List String) (f : Frame) : Frame :=
  ⟨target, f.rows.map (fun r => target.map (fun c => getCell f.cols r c))⟩

/-- `df[primary_key_cols].applymap(str)`: stringify the primary-key cells of
one row, leaving the other columns as they are. -/
def stringifyRow (cols pk : List String) (r : List Cell) : List Cell :=
  List.zipWith (fun c v => if pk.contains c then Cell.str (cellToStr v) else v) cols r

/-- `database[primary_key_cols] = database[primary_key_cols].applymap(str)`. -/
def stringifyPk (pk : List String) (f : Frame) : Frame :=
  ⟨f.cols, f.rows.map (stringifyRow f.cols pk)⟩

/-- `' '.join(values)`: interleave a single space between the strings. -/
def joinSpaceL : List String → List Char
  | [] => []
  | [s] => s.data
  | s :: rest => s.data ++ ' ' :: joinSpaceL rest

/-- The synthesized `UNIQUE_KEY`: space-joined stringification of the
primary-key column values of a row
(`df[primary_key_cols].apply(lambda x: ' '.join(x), axis=1)`). -/
def rowKey (cols pk : List String) (r : List Cell) : String :=
  String.mk (joinSpaceL (pk.map (fun c => cellToStr (getCell cols r c))))

/-- Python `s.split(sep)` for a single-character separator. -/
def splitParts (sep : Char) : List Char → List (List Char)
  | [] => [[]]
  | c :: cs =>
    let parts := splitParts sep cs
    if c = sep then [] :: parts
    else
      match parts with
      | p :: ps => (c :: p) :: ps
      | [] => [[c]]

/-- `rowid.split("_")[0]` and `rowid.split("_")[1]`: parse a Synapse row
identifier string `"<rowId>_<rowVersion>"` into its two components. -/
def splitRid (rid : String) : String × String :=
  match splitParts '_' rid.data with
  | a :: b :: _ => (String.mk a, String.mk b)
  | [a] => (String.mk a, "")
  | [] => ("", "")

/-- A desired-dataset row together with its materialized `UNIQUE_KEY` column. -/
structure KRow where
  key : String
  cells : List Cell
deriving DecidableEq, Repr

/-- An existing-table row: materialized `UNIQUE_KEY`, the data cells, and the
row identifier string `"<rowId>_<rowVersion>"` from the dataframe index. -/
structure DBRow where
  key : String
  cells : List Cell
  rid : String
deriving DecidableEq, Repr

/-- One emitted update: the new cell values plus `ROW_ID` / `ROW_VERSION`
parsed from the existing row's identifier. -/
structure RowUpdate where
  row : List Cell
  row_id : String
  row_version : String
deriving DecidableEq, Repr

/-- The delta emitted by `updateDatabase`: appended rows (no identifier),
updated rows (with identifiers), and deleted row identifiers. -/
structure Delta where
  appends : List (List Cell)
  updates : List RowUpdate
  deletes : List (String × String)
deriving DecidableEq, Repr

/-- `df.drop_duplicates(key)` / `df[~df.index.duplicated()]`: keep the first
row for each key value, tracking the keys already seen. -/
def dropDupsBy {α : Type} (f : α → String) (seen : List String) : List α → List α
  | [] => []
  | x :: xs =>
    if seen.contains (f x) then dropDupsBy f seen xs
    else x :: dropDupsBy f (f x :: seen) xs

/-- `_append_rows`: desired rows whose key is absent from the database frame;
the `UNIQUE_KEY` column is dropped from the result. -/
def _append_rows (new_datasetdf : List KRow) (databasedf : List DBRow) : List (List Cell) :=
  let databasedf := databasedf.map (fun d => { d with cells := fillRow d.cells })
  let new_datasetdf := new_datasetdf.map (fun r => { r with cells := fillRow r.cells })
  ((new_datasetdf.filter (fun r => ¬ (databasedf.map DBRow.key).contains r.key)).map KRow.cells)

/-- `_delete_rows`: identifiers of database rows whose key is absent from the
desired dataset, each parsed into `(ROW_ID, ROW_VERSION)`. -/
def _delete_rows (new_datasetdf : List KRow) (databasedf : List DBRow) : List (String × String) :=
  let databasedf := databasedf.map (fun d => { d with cells := fillRow d.cells })
  let new_datasetdf := new_datasetdf.map (fun r => { r with cells := fillRow r.cells })
  ((databasedf.filter (fun d => ¬ (new_datasetdf.map KRow.key).contains d.key)).map
    (fun d => splitRid d.rid))

/-- `_update_rows` with `_create_update_rowsdf`: restrict both frames to the
shared keys, de-duplicate the desired side keeping the first row per key,
align it to the database side's key order, and emit the desired row (with the
existing row's parsed identifier) whenever the aligned cell vectors differ. -/
def _update_rows (new_datasetdf : List KRow) (databasedf : List DBRow) : List RowUpdate :=
  let databasedf := databasedf.map (fun d => { d with cells := fillRow d.cells })
  let new_datasetdf := new_datasetdf.map (fun r => { r with cells := fillRow r.cells })
  let updatesetdf := new_datasetdf.filter
    (fun r => (databasedf.map DBRow.key).contains r.key)
  let updating_databasedf := databasedf.filter
    (fun d => (new_datasetdf.map KRow.key).contains d.key)
  let updatesetdf := dropDupsBy KRow.key [] updatesetdf
  updating_databasedf.filterMap (fun d =>
    match updatesetdf.find? (fun r => r.key == d.key) with
    | some r =>
      if r.cells = d.cells then none
      else some ⟨r.cells, (splitRid d.rid).1, (splitRid d.rid).2⟩
    | none => none)

/-- `updateDatabase`: fill nulls in both frames, reproject the desired frame
to the existing column order, stringify the primary-key columns, materialize
`UNIQUE_KEY`, and emit the append/update/delete delta (deletes only when
`to_delete`). -/
def updateDatabase (database : Frame) (index : List String) (new_dataset : Frame)
    (primary_key_cols : List String) (to_delete : Bool) : Delta :=
  let databaseF := stringifyPk primary_key_cols (fillFrame database)
  let new_datasetF := stringifyPk primary_key_cols
    (reproject database.cols (fillFrame new_dataset))
  let nd : List KRow := new_datasetF.rows.map
    (fun r => ⟨rowKey database.cols primary_key_cols r, r⟩)
  let db : List DBRow := (databaseF.rows.zip index).map
    (fun ri => ⟨rowKey database.cols primary_key_cols ri.1, ri.1, ri.2⟩)
  { appends := _append_rows nd db
  , updates := _update_rows nd db
  , deletes := if to_delete then _delete_rows nd db else [] }

/-- `storedatabase` flag of `updateDatabase`: a bulk table store happens iff
the combined append/update frame or the delete frame is non-empty. -/
def storeNeeded (d : Delta) : Bool :=
  !(d.appends.isEmpty && d.updates.isEmpty) || !d.deletes.isEmpty

/-- The processed rows of the existing table as `updateDatabase` sees them:
nulls filled with the empty string and primary-key columns stringified. -/
def existingProcessed (database : Frame) (pk : List String) : List (List Cell) :=
  (stringifyPk pk (fillFrame database)).rows

/-- The desired dataset's rows processed the same way, on the desired frame's
own column order. -/
def desiredProcessed (new_dataset : Frame) (pk : List String) : List (List Cell) :=
  (stringifyPk pk (fillFrame new_dataset)).rows

/-- Specification-side appends, following the spec's words: the desired rows
(filled and keyed) whose `UNIQUE_KEY` is absent from the existing frame. -/
def specAppends (database new_dataset : Frame) (pk : List String) : List (List Cell) :=
  (desiredProcessed new_dataset pk).filter (fun d =>
    ¬ ((existingProcessed database pk).map (rowKey database.cols pk)).contains
        (rowKey new_dataset.cols pk d))

/-- Specification-side updates, following the spec's words: for each existing
row whose key also occurs in the desired frame, the (first) desired row with
that key, emitted when its full column-wise value vector differs from the
existing row and carrying `ROW_ID`/`ROW_VERSION` parsed from the existing
row's `"<rid>_<rver>"` identifier. -/
def specUpdates (database new_dataset : Frame) (index : List String)
    (pk : List String) : List RowUpdate :=
  ((existingProcessed database pk).zip index).filterMap (fun er =>
    match (desiredProcessed new_dataset pk).find?
        (fun d => rowKey new_dataset.cols pk d == rowKey database.cols pk er.1) with
    | some d =>
      if d = er.1 then none
      else some ⟨d, (splitRid er.2).1, (splitRid er.2).2⟩
    | none => none)

/-- Specification-side deletes, following the spec's words: the parsed row
identifiers of the existing rows whose key is absent from the desired frame. -/
def specDeletes (database new_dataset : Frame) (index : List String)
    (pk : List String) : List (String × String) :=
  (((existingProcessed database pk).zip index).filter (fun er =>
      ¬ ((desiredProcessed new_dataset pk).map (rowKey new_dataset.cols pk)).contains
          (rowKey database.cols pk er.1))).map
    (fun er => splitRid er.2)

/-- Modelled from the spec: the Platform Gateway's bulk row-level delta
application (§6), which is outside this repository.  Each existing row is
deleted when its parsed identifier is listed in the delta's deletes, replaced
by the matching update's cell values when an update carries its `ROW_ID`, and
kept unchanged otherwise; appended rows are added at the end. -/
def applyDelta (rows : List (List Cell)) (index : List String) (d : Delta) :
    List (List Cell) :=
  (rows.zip index).filterMap (fun ri =>
    if d.deletes.contains (splitRid ri.2) then none
    else
      match d.updates.find? (fun u => u.row_id == (splitRid ri.2).1) with
      | some u => some u.row
      | none => some ri.1) ++ d.appends

/- ## String sanitation (`removeStringFloat` and the CSV serialization of
`updateDatabase`) -/

/-- Whether `pat` is an initial segment of `l`. -/
def startsWith : List Char → List Char → Bool
  | [], _ => true
  | _ :: _, [] => false
  | p :: ps, c :: cs => p = c && startsWith ps cs

/-- Whether `pat` occurs as a contiguous subsequence of `l`. -/
def containsSeq (pat : List Char) : List Char → Bool
  | [] => startsWith pat []
  | c :: cs => startsWith pat (c :: cs) || containsSeq pat cs

/-- Python's `string.replace(".0" + sep, sep)`: scan left to right, replace
each non-overlapping occurrence of `'.' :: '0' :: sep` by `sep`, and continue
scanning after the replacement. -/
def stripPat (sep : Char) : List Char → List Char
  | c1 :: c2 :: c3 :: rest =>
    if c1 = '.' ∧ c2 = '0' ∧ c3 = sep then sep :: stripPat sep rest
    else c1 :: stripPat sep (c2 :: c3 :: rest)
  | other => other

/-- `removeStringFloat`: `string.replace(".0\t", "\t").replace(".0\n", "\n")`
on a tsv text. -/
def removeStringFloat (string : String) : String :=
  String.mk (stripPat '\n' (stripPat '\t' string.data))

/-- The sanitation `updateDatabase` applies to the serialized delta rows:
`.to_csv(...).replace(".0,", ",").replace(".0\n", "\n")`. -/
def sanitizeCsvText (text : String) : String :=
  String.mk (stripPat '\n' (stripPat ',' text.data))

/- ## Status cache and reuse (`input_to_database.check_existing_file_status`) -/

/-- The entity attributes `check_existing_file_status` consults. -/
structure Entity where
  id : String
  md5 : String
  name : String
deriving DecidableEq, Repr

/-- One row of the queried validation status table. -/
structure StatusRow where
  id : String
  md5 : String
  name : String
  status : String
deriving DecidableEq, Repr

/-- One row of the queried error tracker table. -/
structure ErrorRow where
  id : String
  errors : String
deriving DecidableEq, Repr

/-- The dictionary returned by `check_existing_file_status`. -/
structure FileCheck where
  status_list : List String
  error_list : List String
  to_validate : Bool
deriving DecidableEq, Repr

/-- One iteration of the entity loop in `check_existing_file_status`: look up
the entity in both tables, append the cached status, set `to_validate` from
the INVALID-without-error rule when no error row exists (overwriting the
accumulator), append cached errors otherwise, then force `to_validate` when
the md5 or the name changed. -/
def check_step (validation_statusdf : List StatusRow) (error_trackerdf : List ErrorRow)
    (acc : FileCheck) (ent : Entity) : FileCheck :=
  match validation_statusdf.find? (fun r => r.id == ent.id) with
  | none => { acc with to_validate := true }
  | some row =>
    let acc1 : FileCheck :=
      match error_trackerdf.find? (fun e => e.id == ent.id) with
      | none =>
        { acc with status_list := acc.status_list ++ [row.status]
                   to_validate := row.status == "INVALID" }
      | some erow =>
        { acc with status_list := acc.status_list ++ [row.status]
                   error_list := acc.error_list ++ [erow.errors] }
    if row.md5 != ent.md5 || row.name != ent.name then
      { acc1 with to_validate := true }
    else acc1

/-- `check_existing_file_status`: reject more than two entities, then fold
`check_step` over the entities starting from an empty accumulator. -/
def check_existing_file_status (validation_statusdf : List StatusRow)
    (error_trackerdf : List ErrorRow) (entities : List Entity) : Option FileCheck :=
  if entities.length > 2 then none
  else some (entities.foldl (check_step validation_statusdf error_trackerdf) ⟨[], [], false⟩)

/-- The spec's per-entity revalidation rule (§4.4): no status row, or changed
md5/name, or INVALID status without an error row. -/
def needs_revalidation (validation_statusdf : List StatusRow)
    (error_trackerdf : List ErrorRow) (ent : Entity) : Bool :=
  match validation_statusdf.find? (fun r => r.id == ent.id) with
  | none => true
  | some row =>
    row.md5 != ent.md5 || row.name != ent.name ||
      (row.status == "INVALID" && (error_trackerdf.find? (fun e => e.id == ent.id)).isNone)

/- ## Duplicate-filename handling and table-content update
(`input_to_database.get_duplicated_files`, `_update_tables_content`) -/

/-- The canonical duplicated-filename error message
(`input_to_database.DUPLICATED_FILE_ERROR`). -/
def DUPLICATED_FILE_ERROR : String :=
  "Duplicated filename! Files should be uploaded as new versions " ++
  "and the entire dataset should be uploaded."

/-- One row of the per-center validation status frame built by
`build_validation_status_table` (the fields `_update_tables_content` uses). -/
structure VRow where
  id : String
  name : String
  status : String
  fileType : Option String
deriving DecidableEq, Repr

/-- One row of the per-center error tracking frame built by
`build_error_tracking_table` (the fields `_update_tables_content` uses). -/
structure ERow where
  id : String
  errors : String
  name : String
  fileType : Option String
deriving DecidableEq, Repr

/-- `validation_statusdf['name'].duplicated(keep=False)` for one row: its
name occurs at least twice in the frame. -/
def name_duplicated (validation_statusdf : List VRow) (r : VRow) : Bool :=
  2 ≤ (validation_statusdf.filter (fun s => s.name == r.name)).length

/-- `get_duplicated_files`: rows sharing a name with another row, one per id
(first kept), each tagged with the canonical duplicated-filename error. -/
def get_duplicated_files (validation_statusdf : List VRow) : List (VRow × String) :=
  (dropDupsBy VRow.id [] (validation_statusdf.filter (name_duplicated validation_statusdf))).map
    (fun r => (r, DUPLICATED_FILE_ERROR))

/-- The record returned by `_update_tables_content`. -/
structure UpdatedTables where
  validation_statusdf : List VRow
  error_trackingdf : List ERow
  duplicated_filesdf : List (VRow × String)
deriving DecidableEq, Repr

/-- Ids of the currently duplicated files (`duplicated_filesdf['id']`). -/
def dup_now_ids (validation_statusdf : List VRow) : List String :=
  (get_duplicated_files validation_statusdf).map (fun d => d.1.id)

/-- Row-level effect of `validation_statusdf['status'][duplicated_idx] = "INVALID"`. -/
def mark_status_row (validation_statusdf : List VRow) (r : VRow) : VRow :=
  if (dup_now_ids validation_statusdf).contains r.id
  then { r with status := "INVALID" } else r

/-- `validation_statusdf['status'][duplicated_idx] = "INVALID"`. -/
def mark_dup_status (validation_statusdf : List VRow) : List VRow :=
  validation_statusdf.map (mark_status_row validation_statusdf)

/-- Row-level effect of
`error_trackingdf['errors'][duplicated_idx] = DUPLICATED_FILE_ERROR`. -/
def mark_error_row (validation_statusdf : List VRow) (e : ERow) : ERow :=
  if (dup_now_ids validation_statusdf).contains e.id
  then { e with errors := DUPLICATED_FILE_ERROR } else e

/-- `error_trackingdf['errors'][duplicated_idx] = DUPLICATED_FILE_ERROR`. -/
def mark_dup_errors (validation_statusdf : List VRow)
    (error_trackingdf : List ERow) : List ERow :=
  error_trackingdf.map (mark_error_row validation_statusdf)

/-- `remove_ids`: old duplicated-filename errors whose file is no longer
duplicated (`dup_ids[~dup_ids.isin(duplicated_filesdf['id'])]`). -/
def remove_ids (validation_statusdf : List VRow)
    (error_trackingdf : List ERow) : List String :=
  (((mark_dup_errors validation_statusdf error_trackingdf).filter
      (fun e => e.errors == DUPLICATED_FILE_ERROR)).map ERow.id).filter
    (fun i => ¬ (dup_now_ids validation_statusdf).contains i)

/-- The status frame after purging the fixed duplicated files. -/
def status_after_removal (validation_statusdf : List VRow)
    (error_trackingdf : List ERow) : List VRow :=
  (mark_dup_status validation_statusdf).filter
    (fun r => ¬ (remove_ids validation_statusdf error_trackingdf).contains r.id)

/-- The error frame after purging the fixed duplicated files. -/
def errors_after_removal (validation_statusdf : List VRow)
    (error_trackingdf : List ERow) : List ERow :=
  (mark_dup_errors validation_statusdf error_trackingdf).filter
    (fun e => ¬ (remove_ids validation_statusdf error_trackingdf).contains e.id)

/-- The projection `duplicated_filesdf[error_trackingdf.columns]` of one
duplicated-file row to an error row
(`error_trackingdf.append(duplicated_filesdf[error_trackingdf.columns])`). -/
def dup_erow (d : VRow × String) : ERow :=
  { id := d.1.id, errors := d.2, name := d.1.name, fileType := d.1.fileType }

/-- The error frame with the duplicated-file errors appended (continued). -/
def errors_with_dups (validation_statusdf : List VRow)
    (error_trackingdf : List ERow) : List ERow :=
  errors_after_removal validation_statusdf error_trackingdf ++
    (get_duplicated_files validation_statusdf).map dup_erow

/-- `error_trackingdf.drop_duplicates("id")`. -/
def errors_dedup (validation_statusdf : List VRow)
    (error_trackingdf : List ERow) : List ERow :=
  dropDupsBy ERow.id [] (errors_with_dups validation_statusdf error_trackingdf)

/-- `invalid_ids`: ids whose status row is INVALID after the duplicate pass. -/
def invalid_ids (validation_statusdf : List VRow)
    (error_trackingdf : List ERow) : List String :=
  ((status_after_removal validation_statusdf error_trackingdf).filter
    (fun r => r.status == "INVALID")).map VRow.id

/-- `validation_statusdf['fileType'].fillna('other')` on one row.  The final
`_update_tables_content` marks duplicated files INVALID, overwrites their
error text, purges previously recorded duplicate errors whose file is no
longer duplicated from both frames, appends the duplicate rows to the error
frame, drops duplicate error rows by id keeping the first, restricts the
error frame to the ids that are INVALID in the status frame, and fills blank
file types with `"other"`. -/
def fill_vrow (r : VRow) : VRow := { r with fileType := some (r.fileType.getD "other") }

/-- `error_trackingdf['fileType'].fillna('other')` on one row. -/
def fill_erow (e : ERow) : ERow := { e with fileType := some (e.fileType.getD "other") }

/-- `_update_tables_content` (continued). -/
def _update_tables_content (validation_statusdf : List VRow)
    (error_trackingdf : List ERow) : UpdatedTables :=
  { validation_statusdf :=
      (status_after_removal validation_statusdf error_trackingdf).map fill_vrow
  , error_trackingdf := ((errors_dedup validation_statusdf error_trackingdf).filter
      (fun e => (invalid_ids validation_statusdf error_trackingdf).contains e.id)).map fill_erow
  , duplicated_filesdf := get_duplicated_files validation_statusdf }

/- ## Report assembly (`validate.collect_errors_and_warnings`) -/

/-- `collect_errors_and_warnings`: the success banner when `errors` is empty,
otherwise the ERRORS banner followed by the error text; a WARNINGS banner and
the warning text are appended when `warnings` is non-empty. -/
def collect_errors_and_warnings (errors warnings : String) : String :=
  let message :=
    if errors = "" then "YOUR FILE IS VALIDATED!\n"
    else "----------------ERRORS----------------\n" ++ errors
  if warnings ≠ "" then
    message ++ "-------------WARNINGS-------------\n" ++ warnings
  else message

/- ## Filetype detection (`validate.ValidationHelper.determine_filetype`) -/

/-- A Python exception as far as `determine_filetype` is concerned. -/
inductive PyError where
  | assertionError : PyError
  | attributeError : String → PyError
deriving DecidableEq, Repr

/-- The method surface of a registered file format class
(`example_filetype_format.FileTypeFormat` and its subclasses): the
`_filetype` tag, the `validate_filetype(filePath)` method the base contract
defines, and the value of looking up the attribute `validateFilename`, which
no class of this repository defines (`none` = `AttributeError`). -/
structure FileFormatClass where
  filetype : String
  validate_filetype : String → Except PyError String
  validateFilename_impl : Option (List String → Except PyError (Option String))

/-- Python attribute access `validator.validateFilename`: an `AttributeError`
unless the class provides the method. -/
def call_validateFilename (cls : FileFormatClass) (filenames : List String) :
    Except PyError (Option String) :=
  match cls.validateFilename_impl with
  | none => Except.error (PyError.attributeError "validateFilename")
  | some f => f filenames

/-- `ValidationHelper.determine_filetype`: iterate the registered formats,
call `validator.validateFilename(filenames)` swallowing `AssertionError`,
and stop at the first non-null tag; any other exception propagates, and the
result is null when no format accepts the names. -/
def determine_filetype (format_registry : List FileFormatClass)
    (filenames : List String) : Except PyError (Option String) :=
  match format_registry with
  | [] => Except.ok none
  | cls :: rest =>
    match call_validateFilename cls filenames with
    | Except.error PyError.assertionError => determine_filetype rest filenames
    | Except.error e => Except.error e
    | Except.ok none => determine_filetype rest filenames
    | Except.ok (some ft) => Except.ok (some ft)

/-- `os.path.basename` (posix): the final path segment. -/
def basenameL (p : List Char) : List Char :=
  (p.reverse.takeWhile (fun c => c ≠ '/')).reverse

/-- The `Csv` format of `example_registry/csv.py`: `_validate_filetype`
asserts the basename of the file path ends in `".csv"`, and the class (like
every `FileTypeFormat` subclass in this repository) defines no
`validateFilename` attribute. -/
def csvFormat : FileFormatClass :=
  { filetype := "csv"
  , validate_filetype := fun filePath =>
      if startsWith (".csv".data.reverse) ((basenameL filePath.data).reverse)
      then Except.ok "csv"
      else Except.error PyError.assertionError
  , validateFilename_impl := none }

/- ## Registry discovery (`config.py`) -/

/-- A Python class as the discovery code sees it: its name, its defining
module, its `_filetype` attribute, and its direct subclasses
(`cls.__subclasses__()`). -/
inductive PyClass where
  | mk : String → String → String → List PyClass → PyClass

/-- Class name. -/
def PyClass.name : PyClass → String
  | PyClass.mk n _ _ _ => n

/-- `cls.__module__`. -/
def PyClass.module : PyClass → String
  | PyClass.mk _ m _ _ => m

/-- `cls._filetype`. -/
def PyClass.filetype : PyClass → String
  | PyClass.mk _ _ f _ => f

/-- `cls.__subclasses__()`. -/
def PyClass.subclasses : PyClass → List PyClass
  | PyClass.mk _ _ _ s => s

mutual

/-- Structural equality on classes. -/
def pyClassBEq : PyClass → PyClass → Bool
  | PyClass.mk n1 m1 f1 s1, PyClass.mk n2 m2 f2 s2 =>
    n1 == n2 && m1 == m2 && f1 == f2 && pyClassListBEq s1 s2

/-- Structural equality on class lists. -/
def pyClassListBEq : List PyClass → List PyClass → Bool
  | [], [] => true
  | c :: cs, d :: ds => pyClassBEq c d && pyClassListBEq cs ds
  | _, _ => false

end

instance : BEq PyClass := ⟨pyClassBEq⟩

/-- `get_subclasses` restricted to a list of roots: for each subclass, yield
its own transitive subclasses first, then the subclass itself. -/
def get_subclasses_list : List PyClass → List PyClass
  | [] => []
  | PyClass.mk n m f subs :: cs =>
    (get_subclasses_list subs ++ [PyClass.mk n m f subs]) ++ get_subclasses_list cs

/-- `get_subclasses(cls)`: all transitive subclasses of a base class, the
deepest first within each branch. -/
def get_subclasses (cls : PyClass) : List PyClass :=
  get_subclasses_list cls.subclasses

/-- A log record emitted during discovery. -/
inductive LogLevel where
  | debug : LogLevel
  | warning : LogLevel
deriving DecidableEq, Repr

/-- A log record emitted during discovery. -/
structure LogEvent where
  level : LogLevel
  msg : String
deriving DecidableEq, Repr

/-- `cls.__module__.split('.')[0]`: the top-level package of a module path. -/
def top_level_package (module : String) : String :=
  match splitParts '.' module.data with
  | p :: _ => String.mk p
  | [] => ""

/-- `find_subclasses`: keep the transitive subclasses of the base class whose
defining module's top-level package is among the given package names, and
emit a `debug` log record for every candidate checked. -/
def find_subclasses (package_names : List String) (base_class : PyClass) :
    List PyClass × List LogEvent :=
  ((get_subclasses base_class).filter
     (fun cls => package_names.contains (top_level_package cls.module)),
   (get_subclasses base_class).map
     (fun cls => ⟨LogLevel.debug, "checking " ++ cls.name ++ "."⟩))

/-- Python dict insertion: overwrite the value in place when the key exists,
append the pair otherwise. -/
def dictInsert : List (String × PyClass) → String → PyClass → List (String × PyClass)
  | [], k, v => [(k, v)]
  | (k', v') :: rest, k, v =>
    if k' = k then (k', v) :: rest else (k', v') :: dictInsert rest k v

/-- Python dict lookup `d[k]`. -/
def dictLookup : List (String × PyClass) → String → Option PyClass
  | [], _ => none
  | (k', v') :: rest, k => if k' = k then some v' else dictLookup rest k

/-- `make_format_registry_dict`: the comprehension
`{cls._filetype: cls for cls in cls_list}` — later classes with the same tag
silently overwrite earlier ones. -/
def make_format_registry_dict (cls_list : List PyClass) : List (String × PyClass) :=
  cls_list.foldl (fun d cls => dictInsert d cls.filetype cls) []

/-- `collect_format_types`: discovery followed by registry construction,
with the log records the discovery emitted. -/
def collect_format_types (package_names : List String) (base_class : PyClass) :
    List (String × PyClass) × List LogEvent :=
  let found := find_subclasses package_names base_class
  (make_format_registry_dict found.1, found.2)

/-- `collect_validation_helper`: `find_subclasses(...)[0]` — `none` models
the fatal `IndexError` raised when no ValidationHelper subclass is found. -/
def collect_validation_helper (package_names : List String) (base_class : PyClass) :
    Option PyClass :=
  (find_subclasses package_names base_class).1.head?

/- # Helper lemmas -/

theorem mem_of_mem_dropDupsBy {α : Type} {f : α → String} {seen : List String}
    {l : List α} {x : α} (h : x ∈ dropDupsBy f seen l) : x ∈ l := by
  induction l generalizing seen with
  | nil => simpa [dropDupsBy] using h
  | cons y ys ih =>
    by_cases hy : seen.contains (f y)
    · rw [dropDupsBy, if_pos hy] at h
      exact List.mem_cons_of_mem y (ih h)
    · rw [dropDupsBy, if_neg hy] at h
      rcases List.mem_cons.mp h with rfl | h'
      · exact List.mem_cons_self _ _
      · exact List.mem_cons_of_mem y (ih h')

theorem exists_mem_dropDupsBy {α : Type} {f : α → String} {seen : List String}
    {l : List α} {x : α} (hx : x ∈ l) (hs : f x ∉ seen) :
    ∃ y ∈ dropDupsBy f seen l, f y = f x := by
  induction l generalizing seen with
  | nil => cases hx
  | cons z zs ih =>
    rw [dropDupsBy]
    by_cases hz : f z ∈ seen
    · rw [if_pos (by simpa using hz)]
      rcases List.mem_cons.mp hx with rfl | hx'
      · exact absurd hz hs
      · exact ih hx' hs
    · rw [if_neg (by simpa using hz)]
      rcases List.mem_cons.mp hx with rfl | hx'
      · exact ⟨x, List.mem_cons_self _ _, rfl⟩
      · by_cases hfx : f x = f z
        · exact ⟨z, List.mem_cons_self _ _, hfx.symm⟩
        · have hs' : f x ∉ f z :: seen := by
            simp only [List.mem_cons]
            exact fun h => h.elim hfx hs
          obtain ⟨y, hy, hfy⟩ := ih hx' hs'
          exact ⟨y, List.mem_cons_of_mem _ hy, hfy⟩

theorem dropDupsBy_map_nodup {α : Type} (f : α → String) (seen : List String)
    (l : List α) :
    ((dropDupsBy f seen l).map f).Nodup ∧
      ∀ x ∈ dropDupsBy f seen l, f x ∉ seen := by
  induction l generalizing seen with
  | nil => simp [dropDupsBy]
  | cons y ys ih =>
    rw [dropDupsBy]
    by_cases hy : f y ∈ seen
    · rw [if_pos (by simpa using hy)]
      exact ih seen
    · rw [if_neg (by simpa using hy)]
      obtain ⟨ihnodup, ihseen⟩ := ih (f y :: seen)
      refine ⟨?_, ?_⟩
      · simp only [List.map_cons, List.nodup_cons]
        refine ⟨?_, ihnodup⟩
        intro hmem
        obtain ⟨x, hx, hfx⟩ := List.mem_map.mp hmem
        exact ihseen x hx (by simp [hfx])
      · intro x hx
        rcases List.mem_cons.mp hx with rfl | hx'
        · exact hy
        · exact fun h => ihseen x hx' (List.mem_cons_of_mem _ h)

theorem dropDupsBy_find? {α : Type} (f : α → String) (k : String)
    (seen : List String) (l : List α) (hs : k ∉ seen) :
    (dropDupsBy f seen l).find? (fun x => f x == k) = l.find? (fun x => f x == k) := by
  induction l generalizing seen with
  | nil => simp [dropDupsBy]
  | cons x xs ih =>
    rw [dropDupsBy]
    by_cases hx : f x ∈ seen
    · rw [if_pos (by simpa using hx)]
      have hpred : (f x == k) = false := by
        by_cases h : f x = k
        · exact absurd (h ▸ hx) hs
        · simpa [beq_iff_eq] using h
      rw [List.find?_cons, hpred, ih seen hs]
    · rw [if_neg (by simpa using hx)]
      by_cases hpred : f x = k
      · simp [List.find?_cons, hpred]
      · have hpred' : (f x == k) = false := by simpa [beq_iff_eq] using hpred
        rw [List.find?_cons, hpred', List.find?_cons, hpred']
        refine ih (f x :: seen) ?_
        simp only [List.mem_cons]
        exact fun h => h.elim (fun h' => hpred h'.symm) hs

theorem find?_filter_eq {α : Type} (l : List α) (p q : α → Bool) :
    (l.filter p).find? q = l.find? (fun a => p a && q a) := by
  induction l with
  | nil => rfl
  | cons x xs ih =>
    rw [List.filter_cons, List.find?_cons]
    by_cases hp : p x
    · rw [if_pos hp, List.find?_cons]
      by_cases hq : q x
      · simp [hp, hq]
      · simp only [hq, Bool.false_eq_true, if_false]
        simpa [hp, hq] using ih
    · simp only [hp, Bool.false_eq_true, if_false]
      simpa [hp] using ih

theorem find?_eq_some_of_unique {α : Type} {l : List α} {p : α → Bool} {x : α}
    (hx : x ∈ l) (hp : p x = true) (huniq : ∀ y ∈ l, p y = true → y = x) :
    l.find? p = some x := by
  induction l with
  | nil => cases hx
  | cons z zs ih =>
    rw [List.find?_cons]
    by_cases hz : p z
    · have : z = x := huniq z (List.mem_cons_self _ _) hz
      simp [hz, this, hp]
    · have hx' : x ∈ zs := by
        rcases List.mem_cons.mp hx with rfl | h
        · exact absurd hp (by simpa using hz)
        · exact h
      simp only [hz, Bool.false_eq_true, if_false]
      exact ih hx' (fun y hy => huniq y (List.mem_cons_of_mem _ hy))

theorem mem_zip_of_mem_left {α β : Type} {l : List α} {m : List β} {x : α}
    (hx : x ∈ l) (hlen : l.length ≤ m.length) : ∃ i, (x, i) ∈ l.zip m := by
  induction l generalizing m with
  | nil => cases hx
  | cons y ys ih =>
    cases m with
    | nil => simp at hlen
    | cons i is =>
      rcases List.mem_cons.mp hx with rfl | hx'
      · exact ⟨i, List.mem_cons_self _ _⟩
      · obtain ⟨j, hj⟩ := ih hx' (by simpa using Nat.le_of_succ_le_succ hlen)
        exact ⟨j, List.mem_cons_of_mem _ hj⟩

theorem zip_snd_determines {α β : Type} {l : List α} {m : List β}
    (hm : m.Nodup) {p q : α × β} (hp : p ∈ l.zip m) (hq : q ∈ l.zip m)
    (heq : p.2 = q.2) : p = q := by
  induction l generalizing m with
  | nil => cases hp
  | cons x xs ih =>
    cases m with
    | nil => cases hp
    | cons i is =>
      simp only [List.zip_cons_cons, List.mem_cons] at hp hq
      rcases hp with rfl | hp' <;> rcases hq with rfl | hq'
      · rfl
      · exact absurd (heq ▸ (List.of_mem_zip hq').2)
          (by simpa using (List.nodup_cons.mp hm).1)
      · exact absurd (heq ▸ (List.of_mem_zip hp').2)
          (by simpa [heq] using (List.nodup_cons.mp hm).1)
      · exact ih (List.nodup_cons.mp hm).2 hp' hq'

/- # Claim theorems -/

/-- C7: for all pairs of error and warning strings handed to
`collect_errors_and_warnings`, empty/empty yields the canonical success
banner; non-empty errors yield the ERRORS banner followed by the error text;
non-empty warnings append a WARNINGS section; and the errors section always
precedes the warnings section. -/
theorem collect_errors_and_warnings_spec (errors warnings : String) :
    (errors = "" → warnings = "" →
      collect_errors_and_warnings errors warnings = "YOUR FILE IS VALIDATED!\n")
    ∧ (errors ≠ "" →
      collect_errors_and_warnings errors warnings =
        "----------------ERRORS----------------\n" ++ errors ++
          (if warnings = "" then ""
           else "-------------WARNINGS-------------\n" ++ warnings))
    ∧ (warnings ≠ "" →
      ∃ front, collect_errors_and_warnings errors warnings =
        front ++ ("-------------WARNINGS-------------\n" ++ warnings)
        ∧ (errors ≠ "" → front = "----------------ERRORS----------------\n" ++ errors)) := by
  refine ⟨?_, ?_, ?_⟩
  · intro he hw
    simp [collect_errors_and_warnings, he, hw]
  · intro he
    by_cases hw : warnings = ""
    · simp [collect_errors_and_warnings, he, hw]
    · simp [collect_errors_and_warnings, he, hw, String.append_assoc]
  · intro hw
    by_cases he : errors = ""
    · refine ⟨"YOUR FILE IS VALIDATED!\n", ?_, fun h => absurd he h⟩
      simp [collect_errors_and_warnings, he, hw]
      rw [← String.append_assoc]
      congr 1
    · refine ⟨"----------------ERRORS----------------\n" ++ errors, ?_, fun _ => rfl⟩
      simp [collect_errors_and_warnings, he, hw, String.append_assoc]

/-- Witness for C7 at concrete reports. -/
theorem collect_errors_and_warnings_spec_witness :
    collect_errors_and_warnings "" "" = "YOUR FILE IS VALIDATED!\n"
    ∧ collect_errors_and_warnings "bad\n" "odd\n" =
        "----------------ERRORS----------------\n" ++ "bad\n" ++
          "-------------WARNINGS-------------\n" ++ "odd\n" := by
  constructor
  · exact (collect_errors_and_warnings_spec "" "").1 rfl rfl
  · have h := (collect_errors_and_warnings_spec "bad\n" "odd\n").2.1 (by decide)
    rw [h]
    simp [String.append_assoc]

/-- C3, counterexample: with a cached VALIDATED status for the second entity
and no row at all for the first, `check_existing_file_status` returns
`to_validate = false` although the first entity has no status row, so the
claimed disjunction over the entities fails. -/
theorem check_existing_file_status_pair_counterexample :
    (check_existing_file_status [⟨"syn2", "md2", "n2", "VALIDATED"⟩] []
        [⟨"syn1", "md1", "n1"⟩, ⟨"syn2", "md2", "n2"⟩]).map FileCheck.to_validate
      = some false
    ∧ needs_revalidation [⟨"syn2", "md2", "n2", "VALIDATED"⟩] [] ⟨"syn1", "md1", "n1"⟩
      = true := by
  exact ⟨rfl, rfl⟩

/-- C3, amended: for a single-entity submission unit,
`check_existing_file_status` returns `to_validate` equal to the spec's
revalidation rule (no status row, changed md5/name, or INVALID without an
error row), and hands back the cached status and prior error for reuse; for
two-entity units the per-entity checks are applied sequentially and a later
entity's cached-status check can overwrite the verdict of an earlier one. -/
theorem check_existing_file_status_single (validation_statusdf : List StatusRow)
    (error_trackerdf : List ErrorRow) (ent : Entity) :
    check_existing_file_status validation_statusdf error_trackerdf [ent] =
      some { status_list :=
               ((validation_statusdf.find? (fun r => r.id == ent.id)).map
                 StatusRow.status).toList
           , error_list :=
               match validation_statusdf.find? (fun r => r.id == ent.id) with
               | none => []
               | some _ =>
                 ((error_trackerdf.find? (fun e => e.id == ent.id)).map
                   ErrorRow.errors).toList
           , to_validate := needs_revalidation validation_statusdf error_trackerdf ent } := by
  rw [check_existing_file_status]
  rw [if_neg (by simp)]
  simp only [List.foldl_cons, List.foldl_nil]
  rw [check_step, needs_revalidation]
  cases hs : validation_statusdf.find? (fun r => r.id == ent.id) with
  | none => rfl
  | some row =>
    cases he : error_trackerdf.find? (fun e => e.id == ent.id) with
    | none =>
      by_cases hmd : (row.md5 != ent.md5 || row.name != ent.name) = true
      · simp [hmd, Option.isNone]
      · simp only [hmd, Bool.false_eq_true, if_false]
        simp only [Bool.or_eq_true, bne_iff_ne] at hmd
        push_neg at hmd
        simp [hmd.1, hmd.2, Option.isNone]
    | some erow =>
      by_cases hmd : (row.md5 != ent.md5 || row.name != ent.name) = true
      · simp [hmd]
      · simp only [hmd, Bool.false_eq_true, if_false]
        simp only [Bool.or_eq_true, bne_iff_ne] at hmd
        push_neg at hmd
        simp [hmd.1, hmd.2]

/-- C8: `determine_filetype` crashes with an `AttributeError` on the example
registry because it calls `validator.validateFilename`, a method no
`FileTypeFormat` subclass of this repository defines (the base contract and
the tests use `validate_filetype`), even though the Csv format's own filename
check accepts the name `"foo.csv"`. -/
theorem determine_filetype_attribute_error :
    determine_filetype [csvFormat] ["foo.csv"] =
      Except.error (PyError.attributeError "validateFilename")
    ∧ csvFormat.validate_filetype "foo.csv" = Except.ok "csv"
    ∧ determine_filetype [] ["foo.csv"] = Except.ok none := by
  exact ⟨rfl, rfl, rfl⟩

/-- C10: the error tracking frame returned by `_update_tables_content`
contains at most one row per id — its id column is duplicate-free, because
duplicates by id are dropped keeping the first occurrence after the
duplicated-filename errors are appended. -/
theorem error_tracking_single_row_per_id (validation_statusdf : List VRow)
    (error_trackingdf : List ERow) :
    (((_update_tables_content validation_statusdf error_trackingdf).error_trackingdf).map
      ERow.id).Nodup := by
  have key : ∀ (l : List ERow) (p : ERow → Bool) (g : ERow → ERow),
      (∀ e, (g e).id = e.id) →
      ((List.filter p (dropDupsBy ERow.id [] l)).map (ERow.id ∘ g)).Nodup := by
    intro l p g hg
    have hcomp : ERow.id ∘ g = ERow.id := funext fun e => hg e
    rw [hcomp]
    exact List.Nodup.sublist (List.Sublist.map ERow.id (List.filter_sublist _))
      (dropDupsBy_map_nodup ERow.id [] l).1
  simp only [_update_tables_content, List.map_map]
  exact key _ _ _ (fun e => rfl)

theorem dictLookup_dictInsert (d : List (String × PyClass)) (k k' : String) (v : PyClass) :
    dictLookup (dictInsert d k v) k' = if k = k' then some v else dictLookup d k' := by
  induction d with
  | nil => by_cases h : k = k' <;> simp [dictInsert, dictLookup, h]
  | cons p rest ih =>
    obtain ⟨k1, v1⟩ := p
    by_cases h1 : k1 = k
    · subst h1
      by_cases h2 : k1 = k'
      · simp [dictInsert, dictLookup, h2]
      · simp [dictInsert, dictLookup, h2]
    · by_cases h2 : k1 = k'
      · subst h2
        have h1' : ¬ k = k1 := fun h => h1 h.symm
        simp [dictInsert, dictLookup, h1, h1']
      · simp [dictInsert, dictLookup, h1, h2, ih]

theorem registry_lookup_last (cls_list : List PyClass) (tag : String) :
    dictLookup (make_format_registry_dict cls_list) tag =
      cls_list.reverse.find? (fun c => c.filetype == tag) := by
  suffices h : ∀ d : List (String × PyClass),
      dictLookup (cls_list.foldl (fun d cls => dictInsert d cls.filetype cls) d) tag =
        match cls_list.reverse.find? (fun c => c.filetype == tag) with
        | some v => some v
        | none => dictLookup d tag by
    have h0 := h []
    rw [make_format_registry_dict, h0]
    cases cls_list.reverse.find? (fun c => c.filetype == tag) with
    | none => rfl
    | some v => rfl
  induction cls_list with
  | nil => intro d; rfl
  | cons c cs ih =>
    intro d
    rw [List.foldl_cons, ih, List.reverse_cons, List.find?_append]
    cases hcs : cs.reverse.find? (fun c => c.filetype == tag) with
    | some v => rfl
    | none =>
      rw [dictLookup_dictInsert]
      by_cases hc : c.filetype = tag
      · simp [List.find?_cons, hc]
      · have hc' : (c.filetype == tag) = false := by simpa [beq_iff_eq] using hc
        simp [List.find?_cons, hc', hc]

/-- C9, counterexample: two discovered formats in package `pkg` declare the
same tag `"csv"`; `collect_format_types` deterministically keeps the later
one but, contrary to the claim, logs no warning (all discovery log records
are debug records). -/
theorem registry_tie_no_warning_counterexample :
    (collect_format_types ["pkg"]
        (PyClass.mk "Base" "synapsegenie.example_filetype_format" "fileType"
          [PyClass.mk "FormatA" "pkg.a" "csv" [], PyClass.mk "FormatB" "pkg.b" "csv" []])).1
      = [("csv", PyClass.mk "FormatB" "pkg.b" "csv" [])]
    ∧ (collect_format_types ["pkg"]
        (PyClass.mk "Base" "synapsegenie.example_filetype_format" "fileType"
          [PyClass.mk "FormatA" "pkg.a" "csv" [], PyClass.mk "FormatB" "pkg.b" "csv" []])).2.filter
        (fun e => e.level == LogLevel.warning)
      = [] := by
  constructor
  · simp [collect_format_types, find_subclasses, get_subclasses, get_subclasses_list,
      make_format_registry_dict, dictInsert, top_level_package, splitParts,
      PyClass.module, PyClass.filetype, PyClass.subclasses]
  · simp [collect_format_types, find_subclasses, get_subclasses, get_subclasses_list,
      PyClass.subclasses, PyClass.name]

/-- C9, amended: discovery keeps exactly the transitive subclasses whose
defining module's top-level package is among the given names; the registry
maps a tag to the last kept class declaring it (a deterministic choice — but
no warning is logged on a tie, the discovery log holds only debug records);
and `collect_validation_helper` fails (models the fatal `IndexError`) exactly
when no subclass was kept. -/
theorem registry_discovery_spec (package_names : List String) (base_class : PyClass) :
    (∀ cls, cls ∈ (find_subclasses package_names base_class).1 ↔
      (cls ∈ get_subclasses base_class ∧
        package_names.contains (top_level_package cls.module) = true))
    ∧ (∀ tag, dictLookup (collect_format_types package_names base_class).1 tag =
        (find_subclasses package_names base_class).1.reverse.find?
          (fun c => c.filetype == tag))
    ∧ ((collect_format_types package_names base_class).2.filter
        (fun e => e.level == LogLevel.warning) = [])
    ∧ (collect_validation_helper package_names base_class = none ↔
        (find_subclasses package_names base_class).1 = []) := by
  refine ⟨?_, ?_, ?_, ?_⟩
  · intro cls
    simp [find_subclasses, List.mem_filter]
  · intro tag
    exact registry_lookup_last _ tag
  · rw [collect_format_types]
    simp only [find_subclasses]
    rw [List.filter_eq_nil_iff]
    intro e he
    obtain ⟨cls, _, rfl⟩ := List.mem_map.mp he
    simp
  · rw [collect_validation_helper]
    exact List.head?_eq_none_iff

/-- Witness for C9's amended theorem at the concrete two-format registry. -/
theorem registry_discovery_spec_witness :
    dictLookup (collect_format_types ["pkg"]
        (PyClass.mk "Base" "synapsegenie.example_filetype_format" "fileType"
          [PyClass.mk "FormatA" "pkg.a" "csv" [], PyClass.mk "FormatB" "pkg.b" "csv" []])).1
      "csv" = some (PyClass.mk "FormatB" "pkg.b" "csv" []) := by
  rw [(registry_discovery_spec ["pkg"]
    (PyClass.mk "Base" "synapsegenie.example_filetype_format" "fileType"
      [PyClass.mk "FormatA" "pkg.a" "csv" [], PyClass.mk "FormatB" "pkg.b" "csv" []])).2.1 "csv"]
  simp [find_subclasses, get_subclasses, get_subclasses_list, top_level_package,
    splitParts, PyClass.module, PyClass.filetype, PyClass.subclasses]

theorem containsSeq_cons_false {pat : List Char} {c : Char} {cs : List Char}
    (h : containsSeq pat (c :: cs) = false) : containsSeq pat cs = false := by
  rw [containsSeq, Bool.or_eq_false_iff] at h
  exact h.2

theorem containsSeq_of_tail {pat : List Char} {c : Char} {cs : List Char}
    (h : containsSeq pat cs = true) : containsSeq pat (c :: cs) = true := by
  rw [containsSeq, Bool.or_eq_true]
  exact Or.inr h

theorem containsSeq_of_startsWith {pat l : List Char}
    (h : startsWith pat l = true) : containsSeq pat l = true := by
  cases l with
  | nil => simpa [containsSeq] using h
  | cons c cs =>
    rw [containsSeq, Bool.or_eq_true]
    exact Or.inl h

theorem stripPat_head_sep (sep : Char) (v : List Char)
    (h : startsWith [sep] (stripPat sep v) = true) :
    startsWith [sep] v = true ∨ startsWith ['.', '0', sep] v = true := by
  match v with
  | [] => exact Or.inl h
  | [c] => exact Or.inl h
  | [c1, c2] => exact Or.inl h
  | c1 :: c2 :: c3 :: rest =>
    rw [stripPat] at h
    by_cases hm : c1 = '.' ∧ c2 = '0' ∧ c3 = sep
    · right
      obtain ⟨h1, h2, h3⟩ := hm
      simp [startsWith, h1, h2, h3]
    · rw [if_neg hm] at h
      left
      rw [startsWith] at h ⊢
      simpa using h

theorem stripPat_head_zero_sep (sep : Char) (hsep0 : sep ≠ '0') (u : List Char)
    (h : startsWith ['0', sep] (stripPat sep u) = true) :
    startsWith ['0', sep] u = true ∨ startsWith ['0', '.', '0', sep] u = true := by
  match u with
  | [] => exact Or.inl h
  | [c] => exact Or.inl h
  | [c1, c2] => exact Or.inl h
  | d1 :: d2 :: d3 :: rest =>
    rw [stripPat] at h
    by_cases hm : d1 = '.' ∧ d2 = '0' ∧ d3 = sep
    · rw [if_pos hm, startsWith] at h
      rw [Bool.and_eq_true, decide_eq_true_eq] at h
      exact absurd h.1.symm hsep0
    · rw [if_neg hm, startsWith] at h
      rw [Bool.and_eq_true, decide_eq_true_eq] at h
      obtain ⟨hd1, htl⟩ := h
      rcases stripPat_head_sep sep (d2 :: d3 :: rest) htl with hL | hR
      · left
        simp only [startsWith, Bool.and_eq_true, decide_eq_true_eq] at hL
        simp only [startsWith, Bool.and_eq_true, decide_eq_true_eq]
        exact ⟨hd1, hL.1, trivial⟩
      · right
        simp only [startsWith, Bool.and_eq_true, decide_eq_true_eq] at hR
        obtain ⟨hd2, hd3, hR''⟩ := hR
        simp only [startsWith, Bool.and_eq_true, decide_eq_true_eq]
        exact ⟨hd1, hd2, hd3, hR''⟩

theorem stripPat_no_pattern (sep : Char) (hsep1 : sep ≠ '.') (hsep0 : sep ≠ '0')
    (l : List Char) (h : containsSeq ['.', '0', '.', '0'] l = false) :
    containsSeq ['.', '0', sep] (stripPat sep l) = false := by
  match l with
  | [] => rfl
  | [c] => simp [stripPat, containsSeq, startsWith]
  | [c1, c2] => simp [stripPat, containsSeq, startsWith]
  | c1 :: c2 :: c3 :: rest =>
    rw [stripPat]
    by_cases hm : c1 = '.' ∧ c2 = '0' ∧ c3 = sep
    · rw [if_pos hm, containsSeq, Bool.or_eq_false_iff]
      constructor
      · rw [startsWith]
        have hds : decide ('.' = sep) = false := by
          simpa using fun hh : '.' = sep => hsep1 hh.symm
        rw [hds, Bool.false_and]
      · exact stripPat_no_pattern sep hsep1 hsep0 rest
          (containsSeq_cons_false (containsSeq_cons_false (containsSeq_cons_false h)))
    · rw [if_neg hm, containsSeq, Bool.or_eq_false_iff]
      have htail : containsSeq ['.', '0', sep] (stripPat sep (c2 :: c3 :: rest)) = false :=
        stripPat_no_pattern sep hsep1 hsep0 (c2 :: c3 :: rest) (containsSeq_cons_false h)
      refine ⟨?_, htail⟩
      cases hsw : startsWith ['.', '0', sep] (c1 :: stripPat sep (c2 :: c3 :: rest)) with
      | false => rfl
      | true =>
        exfalso
        simp only [startsWith, Bool.and_eq_true, decide_eq_true_eq] at hsw
        obtain ⟨hc1, hsw'⟩ := hsw
        rcases stripPat_head_zero_sep sep hsep0 (c2 :: c3 :: rest) hsw' with hL | hR
        · simp only [startsWith, Bool.and_eq_true, decide_eq_true_eq] at hL
          exact hm ⟨hc1.symm, hL.1.symm, hL.2.1.symm⟩
        · simp only [startsWith, Bool.and_eq_true, decide_eq_true_eq] at hR
          obtain ⟨hc2, hc3, hR'⟩ := hR
          match rest, hR' with
          | r :: rs, hR' =>
            have hpre : startsWith ['.', '0', '.', '0'] (c1 :: c2 :: c3 :: r :: rs) = true := by
              simp only [startsWith, Bool.and_eq_true, decide_eq_true_eq] at hR' ⊢
              exact ⟨hc1, hc2, hc3, hR'.1, trivial⟩
            rw [containsSeq, Bool.or_eq_false_iff] at h
            rw [hpre] at h
            exact absurd h.1 (by simp)

theorem stripPat_startsWith_free (sep : Char) {pat : List Char}
    (hpat : ∀ c ∈ pat, c ≠ sep) (l : List Char)
    (h : startsWith pat (stripPat sep l) = true) : startsWith pat l = true := by
  match l with
  | [] => exact h
  | [c] => exact h
  | [c1, c2] => exact h
  | c1 :: c2 :: c3 :: rest =>
    rw [stripPat] at h
    by_cases hm : c1 = '.' ∧ c2 = '0' ∧ c3 = sep
    · rw [if_pos hm] at h
      match pat, hpat with
      | [], _ => rfl
      | p :: ps, hpat =>
        simp only [startsWith, Bool.and_eq_true, decide_eq_true_eq] at h
        exact absurd h.1 (hpat p (List.mem_cons_self _ _))
    · rw [if_neg hm] at h
      match pat, hpat with
      | [], _ => rfl
      | p :: ps, hpat =>
        simp only [startsWith, Bool.and_eq_true, decide_eq_true_eq] at h
        obtain ⟨hp, htl⟩ := h
        have := stripPat_startsWith_free sep
          (fun c hc => hpat c (List.mem_cons_of_mem _ hc)) (c2 :: c3 :: rest) htl
        simp only [startsWith, Bool.and_eq_true, decide_eq_true_eq]
        exact ⟨hp, this⟩

theorem stripPat_containsSeq_free (sep : Char) {pat : List Char}
    (hpat : ∀ c ∈ pat, c ≠ sep) (l : List Char)
    (h : containsSeq pat (stripPat sep l) = true) : containsSeq pat l = true := by
  match l with
  | [] => exact h
  | [c] => exact h
  | [c1, c2] => exact h
  | c1 :: c2 :: c3 :: rest =>
    rw [stripPat] at h
    by_cases hm : c1 = '.' ∧ c2 = '0' ∧ c3 = sep
    · rw [if_pos hm, containsSeq, Bool.or_eq_true] at h
      rcases h with h | h
      · match pat, hpat with
        | [], _ => exact containsSeq_of_startsWith rfl
        | p :: ps, hpat =>
          simp only [startsWith, Bool.and_eq_true, decide_eq_true_eq] at h
          exact absurd h.1 (hpat p (List.mem_cons_self _ _))
      · have := stripPat_containsSeq_free sep hpat rest h
        exact containsSeq_of_tail (containsSeq_of_tail (containsSeq_of_tail this))
    · rw [if_neg hm, containsSeq, Bool.or_eq_true] at h
      rcases h with h | h
      · match pat, hpat with
        | [], _ => exact containsSeq_of_startsWith rfl
        | p :: ps, hpat =>
          simp only [startsWith, Bool.and_eq_true, decide_eq_true_eq] at h
          obtain ⟨hp, htl⟩ := h
          have := stripPat_startsWith_free sep
            (fun c hc => hpat c (List.mem_cons_of_mem _ hc)) (c2 :: c3 :: rest) htl
          refine containsSeq_of_startsWith ?_
          simp only [startsWith, Bool.and_eq_true, decide_eq_true_eq]
          exact ⟨hp, this⟩
      · have := stripPat_containsSeq_free sep hpat (c2 :: c3 :: rest) h
        exact containsSeq_of_tail this

/-- C6, counterexample: `removeStringFloat` (and the CSV sanitation of
`updateDatabase`) makes a single left-to-right replacement pass, so a cell
text like `"1.0.0"` leaves a trailing `".0"` right before the separator in
the persisted form. -/
theorem removeStringFloat_counterexample :
    removeStringFloat "1.0.0\t" = "1.0\t"
    ∧ containsSeq ['.', '0', '\t'] (removeStringFloat "1.0.0\t").data = true
    ∧ sanitizeCsvText "a,1.0.0,b" = "a,1.0,b"
    ∧ containsSeq ['.', '0', ','] (sanitizeCsvText "a,1.0.0,b").data = true := by
  exact ⟨rfl, by decide, rfl, by decide⟩

/-- C6, amended: provided the serialized text contains no chained float
artifact `".0.0"` (as is the case for pandas' rendering of an integer column
coerced to float by a blank cell, which appends a single `".0"`), the text
persisted after `removeStringFloat` contains no `".0"` immediately before a
tab or newline, and the text persisted by `updateDatabase`'s CSV sanitation
contains no `".0"` immediately before a comma or newline. -/
theorem removeStringFloat_no_trailing_float (s : String)
    (h : containsSeq ['.', '0', '.', '0'] s.data = false) :
    containsSeq ['.', '0', '\t'] (removeStringFloat s).data = false
    ∧ containsSeq ['.', '0', '\n'] (removeStringFloat s).data = false
    ∧ containsSeq ['.', '0', ','] (sanitizeCsvText s).data = false
    ∧ containsSeq ['.', '0', '\n'] (sanitizeCsvText s).data = false := by
  have hdata : ∀ l : List Char, (String.mk l).data = l := fun l => rfl
  refine ⟨?_, ?_, ?_, ?_⟩
  · rw [removeStringFloat, hdata]
    cases hc : containsSeq ['.', '0', '\t'] (stripPat '\n' (stripPat '\t' s.data)) with
    | false => rfl
    | true =>
      exfalso
      have h1 := stripPat_containsSeq_free '\n'
        (by intro c hc'; fin_cases hc' <;> decide) _ hc
      have h2 := stripPat_no_pattern '\t' (by decide) (by decide) s.data h
      rw [h1] at h2
      cases h2
  · rw [removeStringFloat, hdata]
    have h1 : containsSeq ['.', '0', '.', '0'] (stripPat '\t' s.data) = false := by
      cases hc : containsSeq ['.', '0', '.', '0'] (stripPat '\t' s.data) with
      | false => rfl
      | true =>
        have := stripPat_containsSeq_free '\t'
          (by intro c hc'; fin_cases hc' <;> decide) _ hc
        rw [this] at h
        cases h
    have h2 := stripPat_no_pattern '\n' (by decide) (by decide) _ h1
    exact h2
  · rw [sanitizeCsvText, hdata]
    cases hc : containsSeq ['.', '0', ','] (stripPat '\n' (stripPat ',' s.data)) with
    | false => rfl
    | true =>
      exfalso
      have h1 := stripPat_containsSeq_free '\n'
        (by intro c hc'; fin_cases hc' <;> decide) _ hc
      have h2 := stripPat_no_pattern ',' (by decide) (by decide) s.data h
      rw [h1] at h2
      cases h2
  · rw [sanitizeCsvText, hdata]
    have h1 : containsSeq ['.', '0', '.', '0'] (stripPat ',' s.data) = false := by
      cases hc : containsSeq ['.', '0', '.', '0'] (stripPat ',' s.data) with
      | false => rfl
      | true =>
        have := stripPat_containsSeq_free ','
          (by intro c hc'; fin_cases hc' <;> decide) _ hc
        rw [this] at h
        cases h
    exact stripPat_no_pattern '\n' (by decide) (by decide) _ h1

/-- Witness for C6's amended theorem: a serialized update row whose integer
column was coerced to float by a blank gets persisted in integral form. -/
theorem removeStringFloat_no_trailing_float_witness :
    containsSeq ['.', '0', '.', '0'] "foo\t3.0\nbar\t\n".data = false
    ∧ containsSeq ['.', '0', '\t'] (removeStringFloat "foo\t3.0\nbar\t\n").data = false
    ∧ containsSeq ['.', '0', '\n'] (removeStringFloat "foo\t3.0\nbar\t\n").data = false := by
  have h : containsSeq ['.', '0', '.', '0'] "foo\t3.0\nbar\t\n".data = false := by decide
  have hmain := removeStringFloat_no_trailing_float "foo\t3.0\nbar\t\n" h
  exact ⟨h, hmain.1, hmain.2.1⟩

theorem name_duplicated_congr {validation_statusdf : List VRow} {r r' : VRow}
    (h : r.name = r'.name) :
    name_duplicated validation_statusdf r = name_duplicated validation_statusdf r' := by
  rw [name_duplicated, name_duplicated, h]

theorem mem_dup_now_ids {validation_statusdf : List VRow} {i : String} :
    i ∈ dup_now_ids validation_statusdf ↔
      ∃ r ∈ validation_statusdf, r.id = i ∧
        name_duplicated validation_statusdf r = true := by
  rw [dup_now_ids, get_duplicated_files, List.map_map]
  constructor
  · intro h
    obtain ⟨y, hy, hyi⟩ := List.mem_map.mp h
    have hy' := mem_of_mem_dropDupsBy hy
    obtain ⟨hyv, hyp⟩ := List.mem_filter.mp hy'
    exact ⟨y, hyv, hyi, hyp⟩
  · rintro ⟨r, hr, rfl, hdup⟩
    have hrf : r ∈ validation_statusdf.filter (name_duplicated validation_statusdf) :=
      List.mem_filter.mpr ⟨hr, hdup⟩
    obtain ⟨y, hy, hyid⟩ := exists_mem_dropDupsBy hrf (List.not_mem_nil _)
    exact List.mem_map.mpr ⟨y, hy, hyid⟩

theorem gdf_errors_eq {validation_statusdf : List VRow} {d : VRow × String}
    (h : d ∈ get_duplicated_files validation_statusdf) : d.2 = DUPLICATED_FILE_ERROR := by
  rw [get_duplicated_files] at h
  obtain ⟨r, _, rfl⟩ := List.mem_map.mp h
  rfl

theorem mem_dup_now_ids_gdf {validation_statusdf : List VRow} {i : String} :
    i ∈ dup_now_ids validation_statusdf ↔
      ∃ d ∈ get_duplicated_files validation_statusdf, d.1.id = i := by
  rw [dup_now_ids]
  constructor
  · intro h
    obtain ⟨d, hd, rfl⟩ := List.mem_map.mp h
    exact ⟨d, hd, rfl⟩
  · rintro ⟨d, hd, rfl⟩
    exact List.mem_map.mpr ⟨d, hd, rfl⟩

theorem mark_status_row_id (validation_statusdf : List VRow) (r : VRow) :
    (mark_status_row validation_statusdf r).id = r.id := by
  rw [mark_status_row]; split <;> rfl

theorem mark_status_row_name (validation_statusdf : List VRow) (r : VRow) :
    (mark_status_row validation_statusdf r).name = r.name := by
  rw [mark_status_row]; split <;> rfl

theorem mark_status_row_status_of_mem {validation_statusdf : List VRow} {r : VRow}
    (h : r.id ∈ dup_now_ids validation_statusdf) :
    (mark_status_row validation_statusdf r).status = "INVALID" := by
  rw [mark_status_row, if_pos (List.elem_iff.mpr h)]

theorem mark_status_row_of_not_mem {validation_statusdf : List VRow} {r : VRow}
    (h : r.id ∉ dup_now_ids validation_statusdf) :
    mark_status_row validation_statusdf r = r := by
  rw [mark_status_row, if_neg (fun hc => h (List.elem_iff.mp hc))]

theorem mark_error_row_id (validation_statusdf : List VRow) (e : ERow) :
    (mark_error_row validation_statusdf e).id = e.id := by
  rw [mark_error_row]; split <;> rfl

theorem mark_error_row_errors_of_mem {validation_statusdf : List VRow} {e : ERow}
    (h : e.id ∈ dup_now_ids validation_statusdf) :
    (mark_error_row validation_statusdf e).errors = DUPLICATED_FILE_ERROR := by
  rw [mark_error_row, if_pos (List.elem_iff.mpr h)]

theorem mark_error_row_of_not_mem {validation_statusdf : List VRow} {e : ERow}
    (h : e.id ∉ dup_now_ids validation_statusdf) :
    mark_error_row validation_statusdf e = e := by
  rw [mark_error_row, if_neg (fun hc => h (List.elem_iff.mp hc))]

theorem errors_with_dups_all_dup {validation_statusdf : List VRow}
    {error_trackingdf : List ERow} {e : ERow}
    (he : e ∈ errors_with_dups validation_statusdf error_trackingdf)
    (hid : e.id ∈ dup_now_ids validation_statusdf) :
    e.errors = DUPLICATED_FILE_ERROR := by
  rw [errors_with_dups] at he
  rcases List.mem_append.mp he with he | he
  · rw [errors_after_removal] at he
    have he' := (List.mem_filter.mp he).1
    rw [mark_dup_errors] at he'
    obtain ⟨e0, _, rfl⟩ := List.mem_map.mp he'
    rw [mark_error_row_id] at hid
    exact mark_error_row_errors_of_mem hid
  · obtain ⟨d, hd, rfl⟩ := List.mem_map.mp he
    exact gdf_errors_eq hd

theorem mem_invalid_ids {validation_statusdf : List VRow}
    {error_trackingdf : List ERow} {i : String} :
    i ∈ invalid_ids validation_statusdf error_trackingdf ↔
      ∃ r ∈ status_after_removal validation_statusdf error_trackingdf,
        r.id = i ∧ r.status = "INVALID" := by
  rw [invalid_ids]
  constructor
  · intro h
    obtain ⟨r, hr, rfl⟩ := List.mem_map.mp h
    obtain ⟨hr1, hr2⟩ := List.mem_filter.mp hr
    exact ⟨r, hr1, rfl, by simpa [beq_iff_eq] using hr2⟩
  · rintro ⟨r, hr, rfl, hst⟩
    exact List.mem_map.mpr ⟨r, List.mem_filter.mpr ⟨hr, by simpa [beq_iff_eq] using hst⟩, rfl⟩

/-- C4: in the frames produced by `_update_tables_content`, every status row
whose name is shared with at least one other row of the center's status frame
is INVALID and has an error row carrying the canonical duplicated-filename
message; and every previously recorded duplicate-filename error whose file is
no longer duplicated is removed from both the status and the error frame. -/
theorem duplicate_filename_handling (validation_statusdf : List VRow)
    (error_trackingdf : List ERow) :
    (∀ r ∈ (_update_tables_content validation_statusdf error_trackingdf).validation_statusdf,
      name_duplicated validation_statusdf r = true →
        r.status = "INVALID" ∧
        ∃ er ∈ (_update_tables_content validation_statusdf error_trackingdf).error_trackingdf,
          er.id = r.id ∧ er.errors = DUPLICATED_FILE_ERROR)
    ∧ (∀ e ∈ error_trackingdf, e.errors = DUPLICATED_FILE_ERROR →
      (∀ r ∈ validation_statusdf, r.id = e.id →
        name_duplicated validation_statusdf r = false) →
      (∀ r ∈ (_update_tables_content validation_statusdf error_trackingdf).validation_statusdf,
        r.id ≠ e.id)
      ∧ (∀ er ∈ (_update_tables_content validation_statusdf error_trackingdf).error_trackingdf,
        er.id ≠ e.id)) := by
  constructor
  · -- (a) duplicated rows are INVALID with a canonical error row
    intro r hr hname
    simp only [_update_tables_content] at hr
    obtain ⟨r2, hr2, rfl⟩ := List.mem_map.mp hr
    obtain ⟨hr2m, _⟩ := List.mem_filter.mp hr2
    rw [mark_dup_status] at hr2m
    obtain ⟨r0, hr0, rfl⟩ := List.mem_map.mp hr2m
    -- the name is untouched by the status and fileType updates
    have hnm : (fill_vrow (mark_status_row validation_statusdf r0)).name = r0.name := by
      rw [show (fill_vrow (mark_status_row validation_statusdf r0)).name
        = (mark_status_row validation_statusdf r0).name from rfl]
      exact mark_status_row_name _ _
    rw [name_duplicated_congr hnm] at hname
    have hid : r0.id ∈ dup_now_ids validation_statusdf :=
      mem_dup_now_ids.mpr ⟨r0, hr0, rfl, hname⟩
    constructor
    · rw [show (fill_vrow (mark_status_row validation_statusdf r0)).status
        = (mark_status_row validation_statusdf r0).status from rfl]
      exact mark_status_row_status_of_mem hid
    · -- produce the error row
      obtain ⟨d, hd, hdid⟩ := mem_dup_now_ids_gdf.mp hid
      have happ : dup_erow d ∈ errors_with_dups validation_statusdf error_trackingdf := by
        rw [errors_with_dups]
        exact List.mem_append.mpr (Or.inr (List.mem_map.mpr ⟨d, hd, rfl⟩))
      obtain ⟨er1, her1, her1id⟩ :=
        @exists_mem_dropDupsBy ERow ERow.id [] _ _ happ (List.not_mem_nil _)
      have her1w : er1 ∈ errors_with_dups validation_statusdf error_trackingdf :=
        mem_of_mem_dropDupsBy her1
      have her1id' : er1.id = r0.id := by
        rw [her1id, show (dup_erow d).id = d.1.id from rfl, hdid]
      have her1err : er1.errors = DUPLICATED_FILE_ERROR :=
        errors_with_dups_all_dup her1w (her1id' ▸ hid)
      have hinv : r0.id ∈ invalid_ids validation_statusdf error_trackingdf := by
        refine mem_invalid_ids.mpr ⟨_, hr2, ?_, ?_⟩
        · exact mark_status_row_id _ _
        · exact mark_status_row_status_of_mem hid
      refine ⟨fill_erow er1, ?_, ?_, her1err⟩
      · simp only [_update_tables_content]
        refine List.mem_map.mpr ⟨er1, ?_, rfl⟩
        refine List.mem_filter.mpr ⟨her1, ?_⟩
        rw [her1id']
        exact List.elem_iff.mpr hinv
      · rw [show (fill_erow er1).id = er1.id from rfl, her1id',
          show (fill_vrow (mark_status_row validation_statusdf r0)).id
            = (mark_status_row validation_statusdf r0).id from rfl,
          mark_status_row_id]
  · -- (b) fixed duplicated files are purged from both frames
    intro e he hedup hnotdup
    have hnotin : e.id ∉ dup_now_ids validation_statusdf := by
      intro hin
      obtain ⟨r, hr, hrid, hrd⟩ := mem_dup_now_ids.mp hin
      exact absurd hrd (by rw [hnotdup r hr hrid]; simp)
    have hrem : e.id ∈ remove_ids validation_statusdf error_trackingdf := by
      rw [remove_ids]
      refine List.mem_filter.mpr ⟨?_, ?_⟩
      · refine List.mem_map.mpr ⟨e, ?_, rfl⟩
        refine List.mem_filter.mpr ⟨?_, by simp [hedup]⟩
        rw [mark_dup_errors]
        exact List.mem_map.mpr ⟨e, he, mark_error_row_of_not_mem hnotin⟩
      · simp only [decide_eq_true_eq]
        exact fun hc => hnotin (List.elem_iff.mp hc)
    constructor
    · intro r hr
      simp only [_update_tables_content] at hr
      obtain ⟨r2, hr2, rfl⟩ := List.mem_map.mp hr
      obtain ⟨_, hkeep⟩ := List.mem_filter.mp hr2
      intro hid
      rw [show (fill_vrow r2).id = r2.id from rfl] at hid
      simp only [decide_eq_true_eq] at hkeep
      exact hkeep (by rw [hid]; exact List.elem_iff.mpr hrem)
    · intro er her
      simp only [_update_tables_content] at her
      obtain ⟨er1, her1, rfl⟩ := List.mem_map.mp her
      obtain ⟨her1d, _⟩ := List.mem_filter.mp her1
      rw [errors_dedup] at her1d
      have her1w := mem_of_mem_dropDupsBy her1d
      rw [errors_with_dups] at her1w
      intro hid
      rw [show (fill_erow er1).id = er1.id from rfl] at hid
      rcases List.mem_append.mp her1w with hL | hR
      · rw [errors_after_removal] at hL
        obtain ⟨_, hkeep⟩ := List.mem_filter.mp hL
        simp only [decide_eq_true_eq] at hkeep
        exact hkeep (by rw [hid]; exact List.elem_iff.mpr hrem)
      · obtain ⟨d, hd, rfl⟩ := List.mem_map.mp hR
        have hmem : (dup_erow d).id ∈ dup_now_ids validation_statusdf := by
          rw [show (dup_erow d).id = d.1.id from rfl]
          exact mem_dup_now_ids_gdf.mpr ⟨d, hd, rfl⟩
        exact hnotin (hid ▸ hmem)

/-- C5: provided every INVALID row of the incoming status frame has an error
row (which is how `validatefile` builds the two frames), the frames
`_update_tables_content` sends to the table reconciliation have equal id
sets: an id has an error row iff its status row is INVALID. -/
theorem status_error_consistency (validation_statusdf : List VRow)
    (error_trackingdf : List ERow)
    (hcoherent : ∀ r ∈ validation_statusdf, r.status = "INVALID" →
      ∃ e ∈ error_trackingdf, e.id = r.id) :
    ∀ i : String,
      (∃ er ∈ (_update_tables_content validation_statusdf error_trackingdf).error_trackingdf,
        er.id = i) ↔
      (∃ r ∈ (_update_tables_content validation_statusdf error_trackingdf).validation_statusdf,
        r.id = i ∧ r.status = "INVALID") := by
  intro i
  constructor
  · rintro ⟨er, her, rfl⟩
    simp only [_update_tables_content] at her
    obtain ⟨er1, her1, rfl⟩ := List.mem_map.mp her
    obtain ⟨_, hkeep⟩ := List.mem_filter.mp her1
    have hinv : er1.id ∈ invalid_ids validation_statusdf error_trackingdf :=
      List.elem_iff.mp hkeep
    obtain ⟨r, hr, hrid, hrst⟩ := mem_invalid_ids.mp hinv
    refine ⟨fill_vrow r, ?_, ?_, hrst⟩
    · simp only [_update_tables_content]
      exact List.mem_map.mpr ⟨r, hr, rfl⟩
    · rw [show (fill_vrow r).id = r.id from rfl, hrid]
      rfl
  · rintro ⟨r, hr, rfl, hst⟩
    simp only [_update_tables_content] at hr
    obtain ⟨r2, hr2, rfl⟩ := List.mem_map.mp hr
    have hr2st : r2.status = "INVALID" := hst
    obtain ⟨hr2m, hr2keep⟩ := List.mem_filter.mp hr2
    rw [mark_dup_status] at hr2m
    obtain ⟨r0, hr0, rfl⟩ := List.mem_map.mp hr2m
    simp only [decide_eq_true_eq] at hr2keep
    have hnorem : (mark_status_row validation_statusdf r0).id
        ∉ remove_ids validation_statusdf error_trackingdf :=
      fun h => hr2keep (List.elem_iff.mpr h)
    rw [mark_status_row_id] at hnorem
    have hinv : (mark_status_row validation_statusdf r0).id
        ∈ invalid_ids validation_statusdf error_trackingdf :=
      mem_invalid_ids.mpr ⟨_, hr2, rfl, hr2st⟩
    -- find a row of the appended error frame carrying this id
    have hew : ∃ ew ∈ errors_with_dups validation_statusdf error_trackingdf,
        ew.id = r0.id := by
      by_cases hc : r0.id ∈ dup_now_ids validation_statusdf
      · obtain ⟨d, hd, hdid⟩ := mem_dup_now_ids_gdf.mp hc
        refine ⟨dup_erow d, ?_, hdid⟩
        rw [errors_with_dups]
        exact List.mem_append.mpr (Or.inr (List.mem_map.mpr ⟨d, hd, rfl⟩))
      · have hr0st : r0.status = "INVALID" := by
          rw [mark_status_row_of_not_mem hc] at hr2st
          exact hr2st
        obtain ⟨e, he, heid⟩ := hcoherent r0 hr0 hr0st
        refine ⟨mark_error_row validation_statusdf e, ?_, ?_⟩
        · rw [errors_with_dups]
          refine List.mem_append.mpr (Or.inl ?_)
          rw [errors_after_removal]
          refine List.mem_filter.mpr ⟨?_, ?_⟩
          · rw [mark_dup_errors]
            exact List.mem_map.mpr ⟨e, he, rfl⟩
          · simp only [decide_eq_true_eq]
            intro hcon
            rw [mark_error_row_id, heid] at hcon
            exact hnorem (List.elem_iff.mp hcon)
        · rw [mark_error_row_id, heid]
    obtain ⟨ew, hew', hewid⟩ := hew
    obtain ⟨er1, her1, her1id⟩ :=
      @exists_mem_dropDupsBy ERow ERow.id [] _ _ hew' (List.not_mem_nil _)
    refine ⟨fill_erow er1, ?_, ?_⟩
    · simp only [_update_tables_content]
      refine List.mem_map.mpr ⟨er1, ?_, rfl⟩
      refine List.mem_filter.mpr ⟨her1, ?_⟩
      rw [her1id, hewid]
      rw [mark_status_row_id] at hinv
      exact List.elem_iff.mpr hinv
    · rw [show (fill_erow er1).id = er1.id from rfl, her1id, hewid]
      exact (mark_status_row_id _ _).symm

/-- Witness for C5 at a concrete coherent pair of frames. -/
theorem status_error_consistency_witness :
    (∃ er ∈ (_update_tables_content
        [⟨"syn1", "a.txt", "INVALID", some "csv"⟩]
        [⟨"syn1", "bad column", "a.txt", some "csv"⟩]).error_trackingdf,
      er.id = "syn1") ↔
    (∃ r ∈ (_update_tables_content
        [⟨"syn1", "a.txt", "INVALID", some "csv"⟩]
        [⟨"syn1", "bad column", "a.txt", some "csv"⟩]).validation_statusdf,
      r.id = "syn1" ∧ r.status = "INVALID") := by
  refine status_error_consistency _ _ ?_ "syn1"
  intro r hr hst
  refine ⟨⟨"syn1", "bad column", "a.txt", some "csv"⟩, List.mem_cons_self _ _, ?_⟩
  rcases List.mem_cons.mp hr with rfl | h
  · rfl
  · cases h

theorem fillCell_fillCell (v : Cell) : fillCell (fillCell v) = fillCell v := by
  cases v <;> rfl

theorem fillRow_stringifyRow_fillRow (cols pk : List String) (r : List Cell) :
    fillRow (stringifyRow cols pk (fillRow r)) = stringifyRow cols pk (fillRow r) := by
  induction cols generalizing r with
  | nil => rfl
  | cons c cs ih =>
    cases r with
    | nil => rfl
    | cons v vs =>
      show List.map fillCell (stringifyRow (c :: cs) pk
          (List.map fillCell (v :: vs)))
        = stringifyRow (c :: cs) pk (List.map fillCell (v :: vs))
      rw [List.map_cons, stringifyRow, List.zipWith_cons_cons, List.map_cons]
      congr 1
      · split
        · rfl
        · exact fillCell_fillCell v
      · exact ih vs

theorem map_getCell_self (cols : List String) (r : List Cell)
    (h1 : cols.Nodup) (h2 : r.length = cols.length) :
    cols.map (fun c => getCell cols r c) = r := by
  induction cols generalizing r with
  | nil =>
    cases r with
    | nil => rfl
    | cons v vs => simp at h2
  | cons c cs ih =>
    cases r with
    | nil => simp at h2
    | cons v vs =>
      obtain ⟨hc, hcs⟩ := List.nodup_cons.mp h1
      simp only [List.map_cons]
      congr 1
      · simp [getCell]
      · have hpt : ∀ c' ∈ cs, getCell (c :: cs) (v :: vs) c' = getCell cs vs c' := by
          intro c' hc'
          have hne : c ≠ c' := fun h => hc (h ▸ hc')
          simp [getCell, hne]
        rw [List.map_congr_left hpt]
        exact ih vs hcs (by simpa using h2)

theorem reproject_self (f : Frame) (h1 : f.cols.Nodup)
    (h2 : ∀ r ∈ f.rows, r.length = f.cols.length) : reproject f.cols f = f := by
  obtain ⟨cols, rows⟩ := f
  rw [reproject]
  simp only at h1 h2 ⊢
  congr 1
  rw [List.map_congr_left (fun r hr => map_getCell_self cols r h1 (h2 r hr))]
  exact List.map_id rows

theorem filterMap_filter_fuse {α β : Type} (l : List α) (p : α → Bool) (g : α → Option β) :
    (l.filter p).filterMap g = l.filterMap (fun x => if p x then g x else none) := by
  induction l with
  | nil => rfl
  | cons x xs ih =>
    rw [List.filter_cons]
    by_cases hp : p x
    · rw [if_pos hp, List.filterMap_cons, List.filterMap_cons, if_pos hp, ih]
    · rw [if_neg hp, List.filterMap_cons, if_neg hp, ih]

theorem fill_krows_id (nd : List KRow) (hnd : ∀ r ∈ nd, fillRow r.cells = r.cells) :
    nd.map (fun r => { r with cells := fillRow r.cells }) = nd := by
  induction nd with
  | nil => rfl
  | cons r rs ih =>
    rw [List.map_cons, ih (fun x hx => hnd x (List.mem_cons_of_mem _ hx))]
    congr 1
    obtain ⟨k, c⟩ := r
    show KRow.mk k (fillRow c) = KRow.mk k c
    congr 1
    exact hnd ⟨k, c⟩ (List.mem_cons_self _ _)

theorem fill_dbrows_id (db : List DBRow) (hdb : ∀ d ∈ db, fillRow d.cells = d.cells) :
    db.map (fun d => { d with cells := fillRow d.cells }) = db := by
  induction db with
  | nil => rfl
  | cons d ds ih =>
    rw [List.map_cons, ih (fun x hx => hdb x (List.mem_cons_of_mem _ hx))]
    congr 1
    obtain ⟨k, c, i⟩ := d
    show DBRow.mk k (fillRow c) i = DBRow.mk k c i
    congr 1
    exact hdb ⟨k, c, i⟩ (List.mem_cons_self _ _)

theorem _append_rows_eq (nd : List KRow) (db : List DBRow)
    (hnd : ∀ r ∈ nd, fillRow r.cells = r.cells)
    (hdb : ∀ d ∈ db, fillRow d.cells = d.cells) :
    _append_rows nd db =
      (nd.filter (fun r => ¬ (db.map DBRow.key).contains r.key)).map KRow.cells := by
  rw [_append_rows]
  rw [fill_krows_id nd hnd, fill_dbrows_id db hdb]

theorem _delete_rows_eq (nd : List KRow) (db : List DBRow)
    (hnd : ∀ r ∈ nd, fillRow r.cells = r.cells)
    (hdb : ∀ d ∈ db, fillRow d.cells = d.cells) :
    _delete_rows nd db =
      (db.filter (fun d => ¬ (nd.map KRow.key).contains d.key)).map
        (fun d => splitRid d.rid) := by
  rw [_delete_rows]
  rw [fill_krows_id nd hnd, fill_dbrows_id db hdb]

theorem _update_rows_spec (nd : List KRow) (db : List DBRow)
    (hnd : ∀ r ∈ nd, fillRow r.cells = r.cells)
    (hdb : ∀ d ∈ db, fillRow d.cells = d.cells) :
    _update_rows nd db = db.filterMap (fun d =>
      match nd.find? (fun r => r.key == d.key) with
      | some r =>
        if r.cells = d.cells then none
        else some ⟨r.cells, (splitRid d.rid).1, (splitRid d.rid).2⟩
      | none => none) := by
  rw [_update_rows]
  rw [fill_krows_id nd hnd, fill_dbrows_id db hdb]
  rw [filterMap_filter_fuse]
  refine List.filterMap_congr (fun d hd => ?_)
  by_cases hc : (nd.map KRow.key).contains d.key = true
  · rw [if_pos hc]
    have hfind : (dropDupsBy KRow.key []
          (nd.filter (fun r => (db.map DBRow.key).contains r.key))).find?
          (fun r => r.key == d.key)
        = nd.find? (fun r => r.key == d.key) := by
      rw [dropDupsBy_find? KRow.key d.key [] _ (List.not_mem_nil _)]
      rw [find?_filter_eq]
      congr 1
      funext r
      by_cases hk : r.key = d.key
      · have hkb : (r.key == d.key) = true := by simpa [beq_iff_eq] using hk
        have hdbk : (db.map DBRow.key).contains r.key = true := by
          rw [hk]
          exact List.elem_iff.mpr (List.mem_map.mpr ⟨d, hd, rfl⟩)
        rw [hkb, hdbk]
        rfl
      · have hkb : (r.key == d.key) = false := by simpa [beq_iff_eq] using hk
        rw [hkb, Bool.and_false]
    rw [hfind]
  · rw [if_neg hc]
    have hnone : nd.find? (fun r => r.key == d.key) = none := by
      rw [List.find?_eq_none]
      intro r hr
      intro hb
      rw [beq_iff_eq] at hb
      refine absurd ?_ hc
      rw [← hb]
      exact List.elem_iff.mpr (List.mem_map.mpr ⟨r, hr, rfl⟩)
    rw [hnone]

theorem desiredProcessed_fill (new_dataset : Frame) (pk : List String) :
    ∀ r ∈ desiredProcessed new_dataset pk, fillRow r = r := by
  intro r hr
  simp only [desiredProcessed, stringifyPk, fillFrame, List.map_map] at hr
  obtain ⟨r0, _, rfl⟩ := List.mem_map.mp hr
  exact fillRow_stringifyRow_fillRow _ _ _

theorem existingProcessed_fill (database : Frame) (pk : List String) :
    ∀ r ∈ existingProcessed database pk, fillRow r = r := by
  intro r hr
  simp only [existingProcessed, stringifyPk, fillFrame, List.map_map] at hr
  obtain ⟨r0, _, rfl⟩ := List.mem_map.mp hr
  exact fillRow_stringifyRow_fillRow _ _ _

theorem existingProcessed_length (database : Frame) (pk : List String) :
    (existingProcessed database pk).length = database.rows.length := by
  simp [existingProcessed, stringifyPk, fillFrame]

theorem update_entry_eq (D : List (List Cell)) (key : List Cell → String)
    (ri : List Cell × String) :
    (match (D.map (fun r => (⟨key r, r⟩ : KRow))).find? (fun r => r.key == key ri.1) with
      | some r =>
        if r.cells = ri.1 then none
        else some (⟨r.cells, (splitRid ri.2).1, (splitRid ri.2).2⟩ : RowUpdate)
      | none => none)
    = (match D.find? (fun d => key d == key ri.1) with
      | some d =>
        if d = ri.1 then none
        else some (⟨d, (splitRid ri.2).1, (splitRid ri.2).2⟩ : RowUpdate)
      | none => none) := by
  rw [List.find?_map]
  cases hf : D.find? ((fun r => r.key == key ri.1) ∘ (fun r => (⟨key r, r⟩ : KRow))) with
  | none =>
    have hf' : D.find? (fun d => key d == key ri.1) = none := hf
    rw [hf']
    rfl
  | some d =>
    have hf' : D.find? (fun d => key d == key ri.1) = some d := hf
    rw [hf']
    rfl

/-- The delta `updateDatabase` computes, characterized against the
specification-side delta: the engine's dedup/align/compare machinery reduces
to the direct first-match description whenever the desired frame has the
existing frame's column schema. -/
theorem updateDatabase_characterization
    (database new_dataset : Frame) (index : List String)
    (pk : List String) (to_delete : Bool)
    (hcols : new_dataset.cols = database.cols)
    (hnodup : database.cols.Nodup)
    (hwf : ∀ r ∈ new_dataset.rows, r.length = new_dataset.cols.length)
    (hlen : index.length = database.rows.length) :
    updateDatabase database index new_dataset pk to_delete =
      { appends := specAppends database new_dataset pk
      , updates := specUpdates database new_dataset index pk
      , deletes := if to_delete then specDeletes database new_dataset index pk else [] } := by
  have hrepro : reproject database.cols (fillFrame new_dataset) = fillFrame new_dataset := by
    have hc2 : (fillFrame new_dataset).cols = database.cols := hcols
    rw [← hc2]
    refine reproject_self _ ?_ ?_
    · show new_dataset.cols.Nodup
      rw [hcols]; exact hnodup
    · intro r hr
      obtain ⟨r0, hr0, rfl⟩ := List.mem_map.mp hr
      show (fillRow r0).length = new_dataset.cols.length
      rw [fillRow, List.length_map]
      exact hwf r0 hr0
  have hndfill : ∀ x ∈ (desiredProcessed new_dataset pk).map
      (fun r => (⟨rowKey database.cols pk r, r⟩ : KRow)), fillRow x.cells = x.cells := by
    intro x hx
    obtain ⟨r, hr, rfl⟩ := List.mem_map.mp hx
    exact desiredProcessed_fill new_dataset pk r hr
  have hdbfill : ∀ x ∈ ((existingProcessed database pk).zip index).map
      (fun ri => (⟨rowKey database.cols pk ri.1, ri.1, ri.2⟩ : DBRow)),
      fillRow x.cells = x.cells := by
    intro x hx
    obtain ⟨ri, hri, rfl⟩ := List.mem_map.mp hx
    exact existingProcessed_fill database pk ri.1 (List.of_mem_zip hri).1
  have hkeysdb : (((existingProcessed database pk).zip index).map
        (fun ri => (⟨rowKey database.cols pk ri.1, ri.1, ri.2⟩ : DBRow))).map DBRow.key
      = (existingProcessed database pk).map (rowKey database.cols pk) := by
    rw [List.map_map]
    have h1 : (((existingProcessed database pk).zip index)).map
        (DBRow.key ∘ fun ri => (⟨rowKey database.cols pk ri.1, ri.1, ri.2⟩ : DBRow))
        = (((existingProcessed database pk).zip index).map Prod.fst).map
          (rowKey database.cols pk) := by
      rw [List.map_map]
      exact List.map_congr_left (fun ri _ => rfl)
    rw [h1, List.map_fst_zip]
    rw [existingProcessed_length, hlen]
  have hkeysnd : ((desiredProcessed new_dataset pk).map
        (fun r => (⟨rowKey database.cols pk r, r⟩ : KRow))).map KRow.key
      = (desiredProcessed new_dataset pk).map (rowKey database.cols pk) := by
    rw [List.map_map]
    exact List.map_congr_left (fun r _ => rfl)
  simp only [updateDatabase, hrepro]
  have hDrows : (stringifyPk pk (fillFrame new_dataset)).rows = desiredProcessed new_dataset pk := rfl
  have hErows : (stringifyPk pk (fillFrame database)).rows = existingProcessed database pk := rfl
  rw [hDrows, hErows]
  congr 1
  · -- appends
    rw [_append_rows_eq _ _ hndfill hdbfill, hkeysdb]
    rw [List.filter_map]
    have hcomp : (KRow.cells ∘ fun r => (⟨rowKey database.cols pk r, r⟩ : KRow)) = id :=
      funext fun r => rfl
    rw [List.map_map, hcomp, List.map_id]
    rw [specAppends, hcols]
    exact List.filter_congr (fun r _ => rfl)
  · -- updates
    rw [_update_rows_spec _ _ hndfill hdbfill]
    rw [List.filterMap_map]
    rw [specUpdates, hcols]
    refine List.filterMap_congr (fun ri _ => ?_)
    exact update_entry_eq (desiredProcessed new_dataset pk) (rowKey database.cols pk) ri
  · -- deletes
    cases to_delete with
    | false => rfl
    | true =>
      simp only [if_true]
      rw [_delete_rows_eq _ _ hndfill hdbfill, hkeysnd]
      rw [List.filter_map, List.map_map]
      have hcomp : ((fun d : DBRow => splitRid d.rid) ∘
          fun ri : List Cell × String =>
            (⟨rowKey database.cols pk ri.1, ri.1, ri.2⟩ : DBRow))
          = fun ri : List Cell × String => splitRid ri.2 :=
        funext fun ri => rfl
      rw [hcomp]
      rw [specDeletes, hcols]
      exact congrArg _ (List.filter_congr (fun ri _ => rfl))

/-- C1: for every call to `updateDatabase` with an existing table frame (and
aligned row identifiers), a desired dataset frame with the same column
schema, an ordered primary key and a delete flag — after nulls are filled and
rows are keyed on the space-joined `UNIQUE_KEY` — the emitted appends are
exactly the desired rows whose key is absent from the existing frame (no row
identifier); the emitted updates are exactly, per existing row whose key
occurs in both frames, the matching desired row when the full column-wise
value vector differs, carrying `ROW_ID`/`ROW_VERSION` parsed from the
existing row's `"<rid>_<rver>"` identifier; and deletes, emitted only when
the flag is set, are exactly the parsed identifiers of the existing rows
whose key is absent from the desired frame. -/
theorem updateDatabase_delta_spec
    (database new_dataset : Frame) (index : List String)
    (pk : List String) (to_delete : Bool)
    (hcols : new_dataset.cols = database.cols)
    (hnodup : database.cols.Nodup)
    (hwf : ∀ r ∈ new_dataset.rows, r.length = new_dataset.cols.length)
    (hlen : index.length = database.rows.length) :
    updateDatabase database index new_dataset pk to_delete =
      { appends := specAppends database new_dataset pk
      , updates := specUpdates database new_dataset index pk
      , deletes := if to_delete then specDeletes database new_dataset index pk else [] } :=
  updateDatabase_characterization database new_dataset index pk to_delete
    hcols hnodup hwf hlen

/-- Witness for C1 at a concrete pair of frames: one append, one update and
one delete. -/
theorem updateDatabase_delta_spec_witness :
    updateDatabase
        ⟨["id", "v"], [[Cell.str "a", Cell.str "1"], [Cell.str "b", Cell.str "2"]]⟩
        ["1_1", "2_7"]
        ⟨["id", "v"], [[Cell.str "a", Cell.str "9"], [Cell.str "c", Cell.null]]⟩
        ["id"] true
      = { appends := specAppends
            ⟨["id", "v"], [[Cell.str "a", Cell.str "1"], [Cell.str "b", Cell.str "2"]]⟩
            ⟨["id", "v"], [[Cell.str "a", Cell.str "9"], [Cell.str "c", Cell.null]]⟩
            ["id"]
        , updates := specUpdates
            ⟨["id", "v"], [[Cell.str "a", Cell.str "1"], [Cell.str "b", Cell.str "2"]]⟩
            ⟨["id", "v"], [[Cell.str "a", Cell.str "9"], [Cell.str "c", Cell.null]]⟩
            ["1_1", "2_7"] ["id"]
        , deletes := if true then specDeletes
            ⟨["id", "v"], [[Cell.str "a", Cell.str "1"], [Cell.str "b", Cell.str "2"]]⟩
            ⟨["id", "v"], [[Cell.str "a", Cell.str "9"], [Cell.str "c", Cell.null]]⟩
            ["1_1", "2_7"] ["id"] else [] } :=
  updateDatabase_delta_spec
    ⟨["id", "v"], [[Cell.str "a", Cell.str "1"], [Cell.str "b", Cell.str "2"]]⟩
    ⟨["id", "v"], [[Cell.str "a", Cell.str "9"], [Cell.str "c", Cell.null]]⟩
    ["1_1", "2_7"] ["id"] true
    (by decide) (by decide) (by decide) (by decide)

theorem stringifyRow_idem (cols pk : List String) (y : List Cell) :
    stringifyRow cols pk (stringifyRow cols pk y) = stringifyRow cols pk y := by
  induction cols generalizing y with
  | nil => rfl
  | cons c cs ih =>
    cases y with
    | nil => rfl
    | cons v vs =>
      simp only [stringifyRow, List.zipWith_cons_cons]
      congr 1
      · by_cases hc : pk.contains c = true
        · rw [if_pos hc, if_pos hc]
          cases v <;> rfl
        · rw [if_neg hc, if_neg hc]
      · exact ih vs

theorem processRow_idem (cols pk : List String) (r : List Cell) :
    stringifyRow cols pk (fillRow (stringifyRow cols pk (fillRow r)))
      = stringifyRow cols pk (fillRow r) := by
  rw [fillRow_stringifyRow_fillRow, stringifyRow_idem]

theorem desiredProcessed_P_idem (new_dataset : Frame) (pk : List String) :
    ∀ d ∈ desiredProcessed new_dataset pk,
      stringifyRow new_dataset.cols pk (fillRow d) = d := by
  intro d hd
  simp only [desiredProcessed, stringifyPk, fillFrame, List.map_map] at hd
  obtain ⟨r0, _, rfl⟩ := List.mem_map.mp hd
  exact processRow_idem _ _ _

theorem find?_key_self_of_nodup {D : List (List Cell)} {key : List Cell → String}
    (hkD : (D.map key).Nodup) {d : List Cell} (hd : d ∈ D) :
    D.find? (fun x => key x == key d) = some d := by
  refine find?_eq_some_of_unique hd (by simp) (fun y hy hp => ?_)
  rw [beq_iff_eq] at hp
  exact List.inj_on_of_nodup_map hkD hy hd hp

theorem existingProcessed_eq (database : Frame) (pk : List String) :
    existingProcessed database pk
      = database.rows.map (fun r => stringifyRow database.cols pk (fillRow r)) := by
  simp only [existingProcessed, stringifyPk, fillFrame, List.map_map]
  exact List.map_congr_left (fun r _ => rfl)

theorem desiredProcessed_eq (new_dataset : Frame) (pk : List String) :
    desiredProcessed new_dataset pk
      = new_dataset.rows.map (fun r => stringifyRow new_dataset.cols pk (fillRow r)) := by
  simp only [desiredProcessed, stringifyPk, fillFrame, List.map_map]
  exact List.map_congr_left (fun r _ => rfl)

/-- Applying the computed delta to the raw existing rows, characterized
row-by-row: a row whose processed key left the desired frame is dropped (when
deleting), a row whose matching desired row differs is replaced by it, and
any other row is kept; the appended rows follow. -/
theorem applyDelta_spec
    (raw : List (List Cell)) (index : List String) (D : List (List Cell))
    (P : List Cell → List Cell) (key : List Cell → String) (flag : Bool)
    (hlen : index.length = raw.length)
    (hfst : (index.map (fun s => (splitRid s).1)).Nodup) :
    applyDelta raw index
      { appends := D.filter (fun d => ¬ ((raw.map P).map key).contains (key d))
      , updates := ((raw.map P).zip index).filterMap (fun er =>
          match D.find? (fun d => key d == key er.1) with
          | some d =>
            if d = er.1 then none
            else some ⟨d, (splitRid er.2).1, (splitRid er.2).2⟩
          | none => none)
      , deletes := if flag then (((raw.map P).zip index).filter (fun er =>
          ¬ (D.map key).contains (key er.1))).map (fun er => splitRid er.2) else [] }
    = (raw.zip index).filterMap (fun ri =>
        if flag = true ∧ ¬ (D.map key).contains (key (P ri.1)) = true then none
        else some (match D.find? (fun d => key d == key (P ri.1)) with
          | some d => if d = P ri.1 then ri.1 else d
          | none => ri.1))
      ++ D.filter (fun d => ¬ ((raw.map P).map key).contains (key d)) := by
  have hidx : index.Nodup := List.Nodup.of_map _ hfst
  rw [applyDelta]
  congr 1
  refine List.filterMap_congr (fun ri hri => ?_)
  obtain ⟨r0, rid⟩ := ri
  have hsnd : rid ∈ index := (List.of_mem_zip hri).2
  -- the per-row verdict about the update list
  have hUmem : ∀ u ∈ ((raw.map P).zip index).filterMap (fun er =>
        match D.find? (fun d => key d == key er.1) with
        | some d =>
          if d = er.1 then none
          else some (⟨d, (splitRid er.2).1, (splitRid er.2).2⟩ : RowUpdate)
        | none => none),
      (u.row_id == (splitRid rid).1) = true →
      (match D.find? (fun d => key d == key (P r0)) with
        | some d =>
          if d = P r0 then none
          else some (⟨d, (splitRid rid).1, (splitRid rid).2⟩ : RowUpdate)
        | none => none) = some u := by
    intro u hu hpred
    obtain ⟨er, her, herf⟩ := List.mem_filterMap.mp hu
    rw [List.zip_map_left] at her
    obtain ⟨rj, hrj, rfl⟩ := List.mem_map.mp her
    obtain ⟨rja, rjb⟩ := rj
    have hrow : u.row_id = (splitRid rjb).1 := by
      split at herf
      · split at herf
        · cases herf
        · have := Option.some.inj herf
          rw [← this]
          rfl
      · cases herf
    rw [beq_iff_eq] at hpred
    have hfsteq : (splitRid rjb).1 = (splitRid rid).1 := by rw [← hrow, hpred]
    have hsndj : rjb ∈ index := (List.of_mem_zip hrj).2
    have hsnde : rjb = rid := List.inj_on_of_nodup_map hfst hsndj hsnd hfsteq
    have hrj' : (rja, rjb) = (r0, rid) := zip_snd_determines hidx hrj hri hsnde
    rw [hrj'] at herf
    exact herf
  have hb : (match (((raw.map P).zip index).filterMap (fun er =>
        match D.find? (fun d => key d == key er.1) with
        | some d =>
          if d = er.1 then none
          else some (⟨d, (splitRid er.2).1, (splitRid er.2).2⟩ : RowUpdate)
        | none => none)).find? (fun u => u.row_id == (splitRid rid).1) with
      | some u => some u.row
      | none => some r0)
      = some (match D.find? (fun d => key d == key (P r0)) with
        | some d => if d = P r0 then r0 else d
        | none => r0) := by
    cases hDf : D.find? (fun d => key d == key (P r0)) with
    | none =>
      have hUnone : (((raw.map P).zip index).filterMap (fun er =>
          match D.find? (fun d => key d == key er.1) with
          | some d =>
            if d = er.1 then none
            else some (⟨d, (splitRid er.2).1, (splitRid er.2).2⟩ : RowUpdate)
          | none => none)).find? (fun u => u.row_id == (splitRid rid).1) = none := by
        rw [List.find?_eq_none]
        intro u hu hpred
        have h := hUmem u hu (by simpa using hpred)
        rw [hDf] at h
        cases h
      rw [hUnone]
    | some d =>
      by_cases hde : d = P r0
      · have hUnone : (((raw.map P).zip index).filterMap (fun er =>
            match D.find? (fun d => key d == key er.1) with
            | some d =>
              if d = er.1 then none
              else some (⟨d, (splitRid er.2).1, (splitRid er.2).2⟩ : RowUpdate)
            | none => none)).find? (fun u => u.row_id == (splitRid rid).1) = none := by
          rw [List.find?_eq_none]
          intro u hu hpred
          have h := hUmem u hu (by simpa using hpred)
          rw [hDf] at h
          have h2 : (if d = P r0 then none
              else some (⟨d, (splitRid rid).1, (splitRid rid).2⟩ : RowUpdate)) = some u := h
          rw [if_pos hde] at h2
          cases h2
        rw [hUnone]
        show some r0 = some (if d = P r0 then r0 else d)
        rw [if_pos hde]
      · have hu0 : (((raw.map P).zip index).filterMap (fun er =>
            match D.find? (fun d => key d == key er.1) with
            | some d =>
              if d = er.1 then none
              else some (⟨d, (splitRid er.2).1, (splitRid er.2).2⟩ : RowUpdate)
            | none => none)).find? (fun u => u.row_id == (splitRid rid).1)
            = some ⟨d, (splitRid rid).1, (splitRid rid).2⟩ := by
          refine find?_eq_some_of_unique ?_ (by simp) (fun u hu hpred => ?_)
          · refine List.mem_filterMap.mpr ⟨(P r0, rid), ?_, ?_⟩
            · rw [List.zip_map_left]
              exact List.mem_map.mpr ⟨(r0, rid), hri, rfl⟩
            · show (match D.find? (fun d => key d == key (P r0)) with
                | some d =>
                  if d = P r0 then none
                  else some (⟨d, (splitRid rid).1, (splitRid rid).2⟩ : RowUpdate)
                | none => none) = _
              rw [hDf]
              show (if d = P r0 then none
                  else some (⟨d, (splitRid rid).1, (splitRid rid).2⟩ : RowUpdate)) = _
              rw [if_neg hde]
          · have h := hUmem u hu hpred
            rw [hDf] at h
            have h2 : (if d = P r0 then none
                else some (⟨d, (splitRid rid).1, (splitRid rid).2⟩ : RowUpdate)) = some u := h
            rw [if_neg hde] at h2
            exact (Option.some.inj h2).symm
        rw [hu0]
        show some d = some (if d = P r0 then r0 else d)
        rw [if_neg hde]
  cases flag with
  | false =>
    have hdelnil : (if false = true then
        (((raw.map P).zip index).filter (fun er =>
          ¬ (D.map key).contains (key er.1))).map (fun er => splitRid er.2)
        else ([] : List (String × String))) = [] := rfl
    rw [hdelnil]
    have hcfalse : (([] : List (String × String)).contains (splitRid (r0, rid).2)) = false := rfl
    rw [if_neg (by rw [hcfalse]; exact Bool.false_ne_true)]
    rw [if_neg (fun hand => by cases hand.1)]
    exact hb
  | true =>
    have hdeleq : (if true = true then
        (((raw.map P).zip index).filter (fun er =>
          ¬ (D.map key).contains (key er.1))).map (fun er => splitRid er.2)
        else ([] : List (String × String)))
        = (((raw.map P).zip index).filter (fun er =>
          ¬ (D.map key).contains (key er.1))).map (fun er => splitRid er.2) := rfl
    rw [hdeleq]
    by_cases hcont : (D.map key).contains (key (P r0)) = true
    · have hdelfalse : ((((raw.map P).zip index).filter (fun er =>
          ¬ (D.map key).contains (key er.1))).map (fun er => splitRid er.2)).contains
          (splitRid (r0, rid).2) = false := by
        by_cases hc : ((((raw.map P).zip index).filter (fun er =>
            ¬ (D.map key).contains (key er.1))).map (fun er => splitRid er.2)).contains
            (splitRid (r0, rid).2) = true
        · exfalso
          have hmem := List.elem_iff.mp hc
          obtain ⟨er, her, hereq⟩ := List.mem_map.mp hmem
          obtain ⟨herz, herp⟩ := List.mem_filter.mp her
          rw [List.zip_map_left] at herz
          obtain ⟨rj, hrj, rfl⟩ := List.mem_map.mp herz
          have hfsteq : (splitRid rj.2).1 = (splitRid rid).1 := by
            rw [show (Prod.map P id rj).2 = rj.2 from rfl] at hereq
            rw [hereq]
          have hsndj : rj.2 ∈ index := (List.of_mem_zip hrj).2
          have hsnde : rj.2 = rid := List.inj_on_of_nodup_map hfst hsndj hsnd hfsteq
          have hrj' : rj = (r0, rid) := zip_snd_determines hidx hrj hri hsnde
          rw [hrj'] at herp
          simp only [decide_eq_true_eq] at herp
          exact herp hcont
        · simpa using hc
      rw [if_neg (by rw [hdelfalse]; exact Bool.false_ne_true)]
      rw [if_neg (fun hand => absurd hcont hand.2)]
      exact hb
    · have hdeltrue : ((((raw.map P).zip index).filter (fun er =>
          ¬ (D.map key).contains (key er.1))).map (fun er => splitRid er.2)).contains
          (splitRid (r0, rid).2) = true := by
        refine List.elem_iff.mpr ?_
        refine List.mem_map.mpr ⟨(P r0, rid), ?_, rfl⟩
        refine List.mem_filter.mpr ⟨?_, ?_⟩
        · rw [List.zip_map_left]
          exact List.mem_map.mpr ⟨(r0, rid), hri, rfl⟩
        · simp only [decide_eq_true_eq]
          exact hcont
      rw [if_pos hdeltrue, if_pos ⟨rfl, hcont⟩]

/-- Every row of the reconciled table finds itself (processed) as the first
key-match in the desired frame — or finds nothing, which can only happen when
deletes were disabled. -/
theorem rows2_found
    (raw : List (List Cell)) (index : List String)
    (D : List (List Cell)) (P : List Cell → List Cell) (key : List Cell → String)
    (flag : Bool)
    (hPD : ∀ d ∈ D, P d = d)
    (hkD : (D.map key).Nodup) :
    ∀ x ∈ ((raw.zip index).filterMap (fun ri =>
        if flag = true ∧ ¬ (D.map key).contains (key (P ri.1)) = true then none
        else some (match D.find? (fun d => key d == key (P ri.1)) with
          | some d => if d = P ri.1 then ri.1 else d
          | none => ri.1))
      ++ D.filter (fun d => ¬ ((raw.map P).map key).contains (key d))),
      D.find? (fun d => key d == key (P x)) = some (P x)
      ∨ (D.find? (fun d => key d == key (P x)) = none ∧ flag = false) := by
  intro x hx
  rcases List.mem_append.mp hx with hx | hx
  · obtain ⟨ri, hri, hf⟩ := List.mem_filterMap.mp hx
    by_cases hcond : flag = true ∧ ¬ (D.map key).contains (key (P ri.1)) = true
    · rw [if_pos hcond] at hf
      cases hf
    · rw [if_neg hcond] at hf
      have hmatch := Option.some.inj hf
      cases hfind : D.find? (fun d => key d == key (P ri.1)) with
      | none =>
        rw [hfind] at hmatch
        have hx1 : ri.1 = x := hmatch
        right
        constructor
        · rw [← hx1]
          exact hfind
        · cases hflag : flag with
          | false => rfl
          | true =>
            exfalso
            have hcont : (D.map key).contains (key (P ri.1)) = true := by
              by_contra hc
              exact hcond ⟨hflag, hc⟩
            obtain ⟨d0, hd0, hkey0⟩ := List.mem_map.mp (List.elem_iff.mp hcont)
            have hnone := List.find?_eq_none.mp hfind d0 hd0
            exact hnone (beq_iff_eq.mpr hkey0)
      | some d =>
        rw [hfind] at hmatch
        have hd2 : (if d = P ri.1 then ri.1 else d) = x := hmatch
        have hdD : d ∈ D := List.mem_of_find?_eq_some hfind
        by_cases hde : d = P ri.1
        · rw [if_pos hde] at hd2
          left
          rw [← hd2, ← hde]
          exact find?_key_self_of_nodup hkD hdD
        · rw [if_neg hde] at hd2
          left
          rw [← hd2, hPD d hdD]
          exact find?_key_self_of_nodup hkD hdD
  · have hxD : x ∈ D := (List.mem_filter.mp hx).1
    left
    rw [hPD x hxD]
    exact find?_key_self_of_nodup hkD hxD

/-- Every desired row's key is present among the processed keys of the
reconciled table: its matching existing row survives (kept or replaced), or
the row itself was appended. -/
theorem rows2_keys_cover
    (raw : List (List Cell)) (index : List String)
    (D : List (List Cell)) (P : List Cell → List Cell) (key : List Cell → String)
    (flag : Bool)
    (hlen : index.length = raw.length)
    (hPD : ∀ d ∈ D, P d = d) :
    ∀ d ∈ D, ((((raw.zip index).filterMap (fun ri : List Cell × String =>
        if flag = true ∧ ¬ (D.map key).contains (key (P ri.1)) = true then none
        else some (match D.find? (fun d => key d == key (P ri.1)) with
          | some d => if d = P ri.1 then ri.1 else d
          | none => ri.1))
      ++ D.filter (fun d => ¬ ((raw.map P).map key).contains (key d))).map P).map
        key).contains (key d) = true := by
  intro d hd
  by_cases hc : ((raw.map P).map key).contains (key d) = true
  · obtain ⟨k, hk, hkeq⟩ := List.mem_map.mp (List.elem_iff.mp hc)
    obtain ⟨r, hr, rfl⟩ := List.mem_map.mp hk
    obtain ⟨s, hrs⟩ := mem_zip_of_mem_left hr (le_of_eq hlen.symm)
    have hcont : (D.map key).contains (key (P r)) = true := by
      rw [hkeq]
      exact List.elem_iff.mpr (List.mem_map.mpr ⟨d, hd, rfl⟩)
    have hnotdel : ¬ (flag = true ∧ ¬ (D.map key).contains (key (P r)) = true) :=
      fun hand => hand.2 hcont
    refine List.elem_iff.mpr ?_
    cases hfind : D.find? (fun y => key y == key (P r)) with
    | none =>
      exfalso
      obtain ⟨d0, hd0, hkey0⟩ := List.mem_map.mp (List.elem_iff.mp hcont)
      have hnone := List.find?_eq_none.mp hfind d0 hd0
      exact hnone (beq_iff_eq.mpr hkey0)
    | some d' =>
      by_cases hde : d' = P r
      · refine List.mem_map.mpr ⟨P r, List.mem_map.mpr ⟨r, ?_, rfl⟩, hkeq⟩
        refine List.mem_append.mpr (Or.inl (List.mem_filterMap.mpr ⟨(r, s), hrs, ?_⟩))
        show (if flag = true ∧ ¬ (D.map key).contains (key (P r)) = true then none
            else some (match D.find? (fun y => key y == key (P r)) with
              | some d'' => if d'' = P r then r else d''
              | none => r)) = some r
        rw [if_neg hnotdel, hfind]
        show some (if d' = P r then r else d') = some r
        rw [if_pos hde]
      · have hd'D : d' ∈ D := List.mem_of_find?_eq_some hfind
        have hp' := List.find?_some hfind
        have hkey' : key d' = key (P r) := beq_iff_eq.mp hp'
        refine List.mem_map.mpr ⟨P d', List.mem_map.mpr ⟨d', ?_, rfl⟩, ?_⟩
        · refine List.mem_append.mpr
            (Or.inl (List.mem_filterMap.mpr ⟨(r, s), hrs, ?_⟩))
          show (if flag = true ∧ ¬ (D.map key).contains (key (P r)) = true then none
              else some (match D.find? (fun y => key y == key (P r)) with
                | some d'' => if d'' = P r then r else d''
                | none => r)) = some d'
          rw [if_neg hnotdel, hfind]
          show some (if d' = P r then r else d') = some d'
          rw [if_neg hde]
        · rw [hPD d' hd'D, hkey', hkeq]
  · refine List.elem_iff.mpr ?_
    refine List.mem_map.mpr ⟨P d, List.mem_map.mpr ⟨d, ?_, rfl⟩, ?_⟩
    · refine List.mem_append.mpr (Or.inr ?_)
      refine List.mem_filter.mpr ⟨hd, ?_⟩
      exact decide_eq_true hc
    · rw [hPD d hd]

/-- If every desired key is already present among the given keys, the
spec-side append list is empty. -/
theorem second_appends_nil
    (D : List (List Cell)) (keys : List String) (key : List Cell → String)
    (h : ∀ d ∈ D, keys.contains (key d) = true) :
    D.filter (fun d => ¬ keys.contains (key d)) = [] := by
  rw [List.filter_eq_nil_iff]
  intro d hd hp
  exact (of_decide_eq_true hp) (h d hd)

/-- If every existing processed row finds exactly itself (or nothing) as the
first key-match in the desired frame, the spec-side update list is empty. -/
theorem second_updates_nil
    (E2 : List (List Cell)) (index' : List String)
    (D : List (List Cell)) (key : List Cell → String)
    (h : ∀ e ∈ E2, D.find? (fun d => key d == key e) = some e
        ∨ D.find? (fun d => key d == key e) = none) :
    (E2.zip index').filterMap (fun er =>
      match D.find? (fun d => key d == key er.1) with
      | some d =>
        if d = er.1 then none
        else some (⟨d, (splitRid er.2).1, (splitRid er.2).2⟩ : RowUpdate)
      | none => none) = [] := by
  rw [List.filterMap_eq_nil]
  intro er her
  rcases h er.1 (List.of_mem_zip her).1 with hf | hf
  · rw [hf]
    show (if er.1 = er.1 then none
        else some (⟨er.1, (splitRid er.2).1, (splitRid er.2).2⟩ : RowUpdate)) = none
    rw [if_pos rfl]
  · rw [hf]

/-- If every existing processed row's key occurs in the desired frame, the
spec-side delete list is empty. -/
theorem second_deletes_nil
    (E2 : List (List Cell)) (index' : List String)
    (D : List (List Cell)) (key : List Cell → String)
    (h : ∀ e ∈ E2, (D.map key).contains (key e) = true) :
    ((E2.zip index').filter (fun er =>
      ¬ (D.map key).contains (key er.1))).map (fun er => splitRid er.2) = [] := by
  have hnil : (E2.zip index').filter (fun er =>
      ¬ (D.map key).contains (key er.1)) = [] := by
    rw [List.filter_eq_nil_iff]
    intro er her hp
    exact (of_decide_eq_true hp) (h er.1 (List.of_mem_zip her).1)
  rw [hnil]
  rfl

/-- Applying an empty delta to aligned table contents leaves them unchanged. -/
theorem applyDelta_empty (rows : List (List Cell)) (index' : List String)
    (hlen : index'.length = rows.length) :
    applyDelta rows index' { appends := [], updates := [], deletes := [] } = rows := by
  show (rows.zip index').filterMap (fun ri => some ri.1) ++ [] = rows
  rw [List.append_nil]
  have h1 : (rows.zip index').filterMap (fun ri => some ri.1)
      = (rows.zip index').map Prod.fst :=
    congrFun (List.filterMap_eq_map Prod.fst) (rows.zip index')
  rw [h1, List.map_fst_zip]
  exact le_of_eq hlen.symm

/-- Running `updateDatabase` a second time, with the reconciled contents as
the existing frame and the same desired dataset, yields the empty delta —
provided the desired frame's `UNIQUE_KEY` values are pairwise distinct. -/
theorem updateDatabase_second_delta
    (database new_dataset : Frame) (index index' : List String)
    (pk : List String) (to_delete : Bool)
    (hcols : new_dataset.cols = database.cols)
    (hnodup : database.cols.Nodup)
    (hwf : ∀ r ∈ new_dataset.rows, r.length = new_dataset.cols.length)
    (hlen : index.length = database.rows.length)
    (hfst : (index.map (fun s => (splitRid s).1)).Nodup)
    (hkD : ((desiredProcessed new_dataset pk).map (rowKey database.cols pk)).Nodup)
    (hlen2 : index'.length = (applyDelta database.rows index
        (updateDatabase database index new_dataset pk to_delete)).length) :
    updateDatabase
        ⟨database.cols, applyDelta database.rows index
            (updateDatabase database index new_dataset pk to_delete)⟩
        index' new_dataset pk to_delete
      = { appends := [], updates := [], deletes := [] } := by
  have hPD : ∀ d ∈ desiredProcessed new_dataset pk,
      stringifyRow database.cols pk (fillRow d) = d := by
    have h := desiredProcessed_P_idem new_dataset pk
    rw [hcols] at h
    exact h
  have hd1 : updateDatabase database index new_dataset pk to_delete =
      { appends := (desiredProcessed new_dataset pk).filter (fun d =>
          ¬ (((database.rows.map (fun r => stringifyRow database.cols pk (fillRow r))).map
              (rowKey database.cols pk))).contains (rowKey database.cols pk d))
      , updates := ((database.rows.map (fun r =>
            stringifyRow database.cols pk (fillRow r))).zip index).filterMap (fun er =>
          match (desiredProcessed new_dataset pk).find?
              (fun d => rowKey database.cols pk d == rowKey database.cols pk er.1) with
          | some d =>
            if d = er.1 then none
            else some ⟨d, (splitRid er.2).1, (splitRid er.2).2⟩
          | none => none)
      , deletes := if to_delete then
          (((database.rows.map (fun r =>
              stringifyRow database.cols pk (fillRow r))).zip index).filter (fun er =>
            ¬ ((desiredProcessed new_dataset pk).map (rowKey database.cols pk)).contains
                (rowKey database.cols pk er.1))).map (fun er => splitRid er.2)
          else [] } := by
    rw [updateDatabase_characterization database new_dataset index pk to_delete
      hcols hnodup hwf hlen]
    rw [specAppends, specUpdates, specDeletes, hcols, existingProcessed_eq]
  have hrows' : applyDelta database.rows index
      (updateDatabase database index new_dataset pk to_delete)
      = (database.rows.zip index).filterMap (fun ri : List Cell × String =>
          if to_delete = true ∧ ¬ ((desiredProcessed new_dataset pk).map
              (rowKey database.cols pk)).contains
              (rowKey database.cols pk (stringifyRow database.cols pk (fillRow ri.1))) = true
          then none
          else some (match (desiredProcessed new_dataset pk).find?
              (fun d => rowKey database.cols pk d ==
                rowKey database.cols pk (stringifyRow database.cols pk (fillRow ri.1))) with
            | some d =>
              if d = stringifyRow database.cols pk (fillRow ri.1) then ri.1 else d
            | none => ri.1))
        ++ (desiredProcessed new_dataset pk).filter (fun d =>
          ¬ (((database.rows.map (fun r => stringifyRow database.cols pk (fillRow r))).map
              (rowKey database.cols pk))).contains (rowKey database.cols pk d)) := by
    rw [hd1]
    exact applyDelta_spec database.rows index (desiredProcessed new_dataset pk)
      (fun r => stringifyRow database.cols pk (fillRow r)) (rowKey database.cols pk)
      to_delete hlen hfst
  have hQ := rows2_found database.rows index (desiredProcessed new_dataset pk)
    (fun r => stringifyRow database.cols pk (fillRow r)) (rowKey database.cols pk)
    to_delete hPD hkD
  have hcover := rows2_keys_cover database.rows index (desiredProcessed new_dataset pk)
    (fun r => stringifyRow database.cols pk (fillRow r)) (rowKey database.cols pk)
    to_delete hlen hPD
  rw [updateDatabase_characterization
    ⟨database.cols, applyDelta database.rows index
        (updateDatabase database index new_dataset pk to_delete)⟩
    new_dataset index' pk to_delete hcols hnodup hwf hlen2]
  rw [specAppends, specUpdates, specDeletes, hcols, existingProcessed_eq]
  dsimp only
  rw [hrows']
  have hfound : ∀ e ∈ ((database.rows.zip index).filterMap (fun ri : List Cell × String =>
        if to_delete = true ∧ ¬ ((desiredProcessed new_dataset pk).map
            (rowKey database.cols pk)).contains
            (rowKey database.cols pk (stringifyRow database.cols pk (fillRow ri.1))) = true
        then none
        else some (match (desiredProcessed new_dataset pk).find?
            (fun d => rowKey database.cols pk d ==
              rowKey database.cols pk (stringifyRow database.cols pk (fillRow ri.1))) with
          | some d =>
            if d = stringifyRow database.cols pk (fillRow ri.1) then ri.1 else d
          | none => ri.1))
      ++ (desiredProcessed new_dataset pk).filter (fun d =>
        ¬ (((database.rows.map (fun r => stringifyRow database.cols pk (fillRow r))).map
            (rowKey database.cols pk))).contains (rowKey database.cols pk d))).map
        (fun r => stringifyRow database.cols pk (fillRow r)),
      (desiredProcessed new_dataset pk).find?
          (fun d => rowKey database.cols pk d == rowKey database.cols pk e) = some e
      ∨ (desiredProcessed new_dataset pk).find?
          (fun d => rowKey database.cols pk d == rowKey database.cols pk e) = none := by
    intro e he
    obtain ⟨x, hx, rfl⟩ := List.mem_map.mp he
    rcases hQ x hx with hf | hf
    · exact Or.inl hf
    · exact Or.inr hf.1
  have hA2 := second_appends_nil (desiredProcessed new_dataset pk)
    ((((database.rows.zip index).filterMap (fun ri : List Cell × String =>
        if to_delete = true ∧ ¬ ((desiredProcessed new_dataset pk).map
            (rowKey database.cols pk)).contains
            (rowKey database.cols pk (stringifyRow database.cols pk (fillRow ri.1))) = true
        then none
        else some (match (desiredProcessed new_dataset pk).find?
            (fun d => rowKey database.cols pk d ==
              rowKey database.cols pk (stringifyRow database.cols pk (fillRow ri.1))) with
          | some d =>
            if d = stringifyRow database.cols pk (fillRow ri.1) then ri.1 else d
          | none => ri.1))
      ++ (desiredProcessed new_dataset pk).filter (fun d =>
        ¬ (((database.rows.map (fun r => stringifyRow database.cols pk (fillRow r))).map
            (rowKey database.cols pk))).contains (rowKey database.cols pk d))).map
        (fun r => stringifyRow database.cols pk (fillRow r))).map
        (rowKey database.cols pk))
    (rowKey database.cols pk) hcover
  have hU2 := second_updates_nil (((database.rows.zip index).filterMap (fun ri : List Cell × String =>
        if to_delete = true ∧ ¬ ((desiredProcessed new_dataset pk).map
            (rowKey database.cols pk)).contains
            (rowKey database.cols pk (stringifyRow database.cols pk (fillRow ri.1))) = true
        then none
        else some (match (desiredProcessed new_dataset pk).find?
            (fun d => rowKey database.cols pk d ==
              rowKey database.cols pk (stringifyRow database.cols pk (fillRow ri.1))) with
          | some d =>
            if d = stringifyRow database.cols pk (fillRow ri.1) then ri.1 else d
          | none => ri.1))
      ++ (desiredProcessed new_dataset pk).filter (fun d =>
        ¬ (((database.rows.map (fun r => stringifyRow database.cols pk (fillRow r))).map
            (rowKey database.cols pk))).contains (rowKey database.cols pk d))).map
        (fun r => stringifyRow database.cols pk (fillRow r)))
    index' (desiredProcessed new_dataset pk) (rowKey database.cols pk) hfound
  rw [hA2, hU2]
  have hDel2 : (if to_delete then ((((((database.rows.zip index).filterMap (fun ri : List Cell × String =>
        if to_delete = true ∧ ¬ ((desiredProcessed new_dataset pk).map
            (rowKey database.cols pk)).contains
            (rowKey database.cols pk (stringifyRow database.cols pk (fillRow ri.1))) = true
        then none
        else some (match (desiredProcessed new_dataset pk).find?
            (fun d => rowKey database.cols pk d ==
              rowKey database.cols pk (stringifyRow database.cols pk (fillRow ri.1))) with
          | some d =>
            if d = stringifyRow database.cols pk (fillRow ri.1) then ri.1 else d
          | none => ri.1))
      ++ (desiredProcessed new_dataset pk).filter (fun d =>
        ¬ (((database.rows.map (fun r => stringifyRow database.cols pk (fillRow r))).map
            (rowKey database.cols pk))).contains (rowKey database.cols pk d))).map
        (fun r => stringifyRow database.cols pk (fillRow r))).zip index').filter
          (fun er : (List Cell) × String =>
          ¬ ((desiredProcessed new_dataset pk).map (rowKey database.cols pk)).contains
              (rowKey database.cols pk er.1))).map
          (fun er : (List Cell) × String => splitRid er.2))
      else []) = [] := by
    cases to_delete with
    | false => rfl
    | true =>
      have ht : (true : Bool) = true := rfl
      rw [if_pos ht]
      refine second_deletes_nil _ index' _ (rowKey database.cols pk) ?_
      intro e he
      obtain ⟨x, hx, rfl⟩ := List.mem_map.mp he
      rcases hQ x hx with hf | hf
      · exact List.elem_iff.mpr
          (List.mem_map.mpr ⟨_, List.mem_of_find?_eq_some hf, rfl⟩)
      · exact absurd hf.2 (by decide)
  rw [hDel2]

/-- C2 (amended): reconciliation is idempotent for desired datasets whose
`UNIQUE_KEY` values are pairwise distinct.  Under the table-snapshot
invariants (matching column schema, duplicate-free column names, well-formed
desired rows, row identifiers aligned with the rows and with pairwise
distinct `ROW_ID`s): applying the delta computed by `updateDatabase` once and
invoking `updateDatabase` again with the resulting contents as the existing
frame and the same desired dataset emits no appends, no updates and no
deletes, the second invocation performs no bulk store, and applying the
second (empty) delta leaves the table content unchanged. -/
theorem updateDatabase_idempotent
    (database new_dataset : Frame) (index index' : List String)
    (pk : List String) (to_delete : Bool)
    (hcols : new_dataset.cols = database.cols)
    (hnodup : database.cols.Nodup)
    (hwf : ∀ r ∈ new_dataset.rows, r.length = new_dataset.cols.length)
    (hlen : index.length = database.rows.length)
    (hfst : (index.map (fun s => (splitRid s).1)).Nodup)
    (hkD : ((desiredProcessed new_dataset pk).map (rowKey database.cols pk)).Nodup)
    (hlen2 : index'.length = (applyDelta database.rows index
        (updateDatabase database index new_dataset pk to_delete)).length) :
    updateDatabase
        ⟨database.cols, applyDelta database.rows index
            (updateDatabase database index new_dataset pk to_delete)⟩
        index' new_dataset pk to_delete
      = { appends := [], updates := [], deletes := [] }
    ∧ storeNeeded (updateDatabase
        ⟨database.cols, applyDelta database.rows index
            (updateDatabase database index new_dataset pk to_delete)⟩
        index' new_dataset pk to_delete) = false
    ∧ applyDelta
        (applyDelta database.rows index
          (updateDatabase database index new_dataset pk to_delete))
        index'
        (updateDatabase
          ⟨database.cols, applyDelta database.rows index
              (updateDatabase database index new_dataset pk to_delete)⟩
          index' new_dataset pk to_delete)
      = applyDelta database.rows index
          (updateDatabase database index new_dataset pk to_delete) := by
  have h2 := updateDatabase_second_delta database new_dataset index index' pk to_delete
    hcols hnodup hwf hlen hfst hkD hlen2
  refine ⟨h2, ?_, ?_⟩
  · rw [h2]
    rfl
  · rw [h2]
    exact applyDelta_empty _ index' hlen2

/-- Witness for C2's amended theorem at concrete frames (one append, one
update and one delete in the first run): the second run stores nothing. -/
theorem updateDatabase_idempotent_witness :
    storeNeeded (updateDatabase
        ⟨["id", "v"], applyDelta
            [[Cell.str "a", Cell.str "1"], [Cell.str "b", Cell.str "2"]]
            ["1_1", "2_7"]
            (updateDatabase
              ⟨["id", "v"], [[Cell.str "a", Cell.str "1"], [Cell.str "b", Cell.str "2"]]⟩
              ["1_1", "2_7"]
              ⟨["id", "v"], [[Cell.str "a", Cell.str "9"], [Cell.str "c", Cell.null]]⟩
              ["id"] true)⟩
        ["10_1", "11_1"]
        ⟨["id", "v"], [[Cell.str "a", Cell.str "9"], [Cell.str "c", Cell.null]]⟩
        ["id"] true) = false :=
  (updateDatabase_idempotent
    ⟨["id", "v"], [[Cell.str "a", Cell.str "1"], [Cell.str "b", Cell.str "2"]]⟩
    ⟨["id", "v"], [[Cell.str "a", Cell.str "9"], [Cell.str "c", Cell.null]]⟩
    ["1_1", "2_7"] ["10_1", "11_1"] ["id"] true
    (by decide) (by decide) (by decide) (by decide) (by decide) (by decide)
    (by decide)).2.1

/-- C2 counterexample to the unconditional claim: a desired dataset with two
rows sharing the `UNIQUE_KEY` value `"a"`.  The first run appends both rows
(`_append_rows` does not deduplicate); the second run deduplicates the
desired frame to its first `"a"` row, finds the second stored row different,
and emits an update — so the second invocation performs a bulk store. -/
theorem updateDatabase_idempotent_counterexample :
    storeNeeded (updateDatabase
        ⟨["id", "v"], applyDelta ([] : List (List Cell)) []
            (updateDatabase ⟨["id", "v"], ([] : List (List Cell))⟩ []
              ⟨["id", "v"], [[Cell.str "a", Cell.str "1"], [Cell.str "a", Cell.str "2"]]⟩
              ["id"] false)⟩
        ["3_1", "4_1"]
        ⟨["id", "v"], [[Cell.str "a", Cell.str "1"], [Cell.str "a", Cell.str "2"]]⟩
        ["id"] false) = true := by
  decide

end SynapseGenie
